import Mathlib

/-!
# Filter builder, resource names, memo relation statements and build targets

Four parts of the repository are embedded, each in its namespace:
`Filter` (`plugin/filter/parser.go`), `ResourceName`
(`server/router/api/v1/resource_name.go`), `Store`
(`store/db/mysql/memo_relation.go`, `store/db/postgres/memo_relation.go`)
and `Dagger` (`.dagger/lib.go`, `.dagger/main.go`). The definitions of all
four come first, the theorems after them.

## Filter builder of `plugin/filter/parser.go`

A shallow embedding of the expression-tree-to-condition builder
(`buildCondition` and the functions it calls) together with theorems about
what it accepts, what it rejects and what it returns.

Conventions of the embedding:

* a Go `(T, error)` result is an `Except Err T`; every `errors.New` /
  `errors.Errorf` site of the file has its own constructor of `Err`, carrying
  the values that the message formats (the two `Extract...FromName`
  functions of `ResourceName` keep the Go pair, as their callers are promised
  the empty string next to the error);
* a Go `(value, ok, err)` result is an `Except Err (Option T)`, `none`
  standing for `ok = false` (no caller reads the value in that case);
* an `int64` is an `Int`, wrapped explicitly by `wrapInt64` wherever Go
  arithmetic or a conversion can overflow;
* a `float64` is carried by its IEEE-754 bit pattern (`F64`);
* the two environmental reads (the wall clock, the platform's
  float-to-integer conversion) are fields of `Env`; all clock reads of one
  build return the same second;
* an expression tree is a parsed one: every node pointer in it is non-nil,
  a node whose kind is not set being `Expr.unset`;
* a function of the source that takes a `*exprv1.Expr_Call` takes here the
  parts of the call it reads (target, function symbol, arguments);
* `Schema` and `Field` are declared outside `parser.go`; the schema is taken
  as a parameter, the pair of lookups the builder calls.
-/

namespace Filter

/-! ## The parsed expression tree (`exprv1.Expr`) -/

/-- A `float64`, carried by its 64-bit IEEE-754 pattern. -/
structure F64 where
  bits : Nat
deriving DecidableEq

/-- Go's `v != 0` on a `float64`: false exactly for `+0` and `-0` (all bits
below the sign bit clear), true for everything else, NaN included. -/
def F64.neZero (v : F64) : Bool :=
  v.bits % 2 ^ 63 != 0

/-- The `ConstantKind` oneof of `exprv1.Constant`; `unset` is the oneof left
empty. -/
inductive Constant where
  | null
  | bool (v : Bool)
  | int64 (v : Int)
  | uint64 (v : Nat)
  | double (v : F64)
  | string (v : String)
  | bytes (v : List Nat)
  | duration (seconds nanos : Int)
  | timestamp (seconds nanos : Int)
  | unset
deriving DecidableEq

/-- The `ExprKind` oneof of `exprv1.Expr` (node ids are dropped, the builder
never reads them); `unset` is the oneof left empty. A call carries its
optional target, its function symbol and its arguments. -/
inductive Expr where
  | unset
  | const (c : Constant)
  | ident (name : String)
  | select (operand : Expr) (field : String) (testOnly : Bool)
  | call (target : Option Expr) (function : String) (args : List Expr)
  | list (elements : List Expr)
  | struct (messageName : String) (entryValues : List Expr)
  | comprehension (iterVar : String) (iterRange : Expr) (accuVar : String)
      (accuInit loopCondition loopStep result : Expr)

/-! ## Schema -/

/-- The six comparison operators. -/
inductive ComparisonOperator where
  | CompareEq | CompareNeq | CompareLt | CompareGt | CompareLte | CompareGte
deriving DecidableEq

/-- The two logical connectives. -/
inductive LogicalOperator where
  | LogicalAnd | LogicalOr
deriving DecidableEq

/-- Modelled from the spec: the `FieldType` enumeration is declared outside
this file; the builder only compares it with `FieldTypeBool`. -/
inductive FieldType where
  | FieldTypeBool | FieldTypeString | FieldTypeInt | FieldTypeEnum
deriving DecidableEq

/-- Modelled from the spec: the `FieldKind` enumeration is declared outside
this file; the builder only compares it with `FieldKindVirtualAlias`. -/
inductive FieldKind where
  | FieldKindNormal | FieldKindVirtualAlias
deriving DecidableEq

/-- Modelled from the spec: the field definition is declared outside this
file. `AllowedComparisonOps` is a Go map used as a set: `none` is the nil
map, `some ks` a non-nil map whose keys are `ks` (possibly none at all). -/
structure Field where
  Name : String
  Typ : FieldType
  Kind : FieldKind
  AllowedComparisonOps : Option (List ComparisonOperator)
  SupportsContains : Bool
deriving DecidableEq

/-- Modelled from the spec: the schema is declared outside this file; the
builder uses only its two lookups, each returning the field and a found
flag (here an `Option`). -/
structure Schema where
  Field : String → Option Filter.Field
  ResolveAlias : String → Option Filter.Field

/-! ## Condition / value AST -/

/-- The payload of a `LiteralValue`: what `getConstValue` can return
(`bool`, `int64`, `float64`, `string` or the nil interface). -/
inductive Value where
  | bool (v : Bool)
  | int64 (v : Int)
  | float64 (v : F64)
  | string (v : String)
  | null
deriving DecidableEq

/-- Value expressions: `FieldRef`, `LiteralValue`, `FunctionValue`. -/
inductive ValueExpr where
  | FieldRef (Name : String)
  | LiteralValue (Value : Value)
  | FunctionValue (Name : String) (Args : List ValueExpr)

/-- Conditions: the eight node types the builder constructs. -/
inductive Condition where
  | ConstantCondition (Value : Bool)
  | FieldPredicateCondition (Field : String)
  | LogicalCondition (Operator : LogicalOperator) (Left Right : Condition)
  | NotCondition (Expr : Condition)
  | ComparisonCondition (Left : ValueExpr) (Operator : ComparisonOperator) (Right : ValueExpr)
  | InCondition (Left : ValueExpr) (Values : List ValueExpr)
  | ElementInCondition (Element : ValueExpr) (Field : String)
  | ContainsCondition (Field : String) (Value : String)

/-- One constructor per error site of the file, with the values its message
formats. -/
inductive Err where
  | filterMustBeBoolean
  | unknownIdentifier (name : String)
  | identifierNotBoolean (name : String)
  | unsupportedTopLevel
  | andExpectsTwo
  | orExpectsTwo
  | notExpectsOne
  | unsupportedCall (function : String)
  | comparisonExpectsTwo
  | invalidAlias (name : String)
  | operatorNotAllowed (op : ComparisonOperator) (name : String)
  | inExpectsTwo
  | invalidIn
  | containsRequiresTarget
  | containsNoContains (name : String)
  | containsExpectsOne
  | containsLiteralOnly (cause : Err)
  | containsMustBeString
  | sizeExpectsOne
  | unsupportedValue
  | unsupportedComparisonOperator (fn : String)
  | notAnIdentifier
  | notALiteral
  | unsupportedConstant
  | boolNotExpectsOne
  | arithmeticExpectsTwo
  | unsupportedArithmetic (fn : String)
deriving DecidableEq

/-- The environment of one build: the Unix time every `timeNowUnix()` read of
that build returns, and the platform's `int64(v)` conversion of a
`float64`. -/
structure Env where
  timeNowUnix : Int
  f64ToInt64 : F64 → Int

/-- Reduction of an integer to the `int64` range, two's complement. -/
def wrapInt64 (n : Int) : Int :=
  (n + 2 ^ 63) % 2 ^ 64 - 2 ^ 63

/-! ## The builder -/

/-- Source function `getIdentName`: the name of an identifier expression. -/
def getIdentName : Expr → Except Err String
  | .ident name => .ok name
  | _ => .error .notAnIdentifier

/-- Source function `getConstValue`: the Go value of a constant expression. -/
def getConstValue : Expr → Except Err Value
  | .const c =>
    match c with
    | .string v => .ok (.string v)
    | .int64 v => .ok (.int64 v)
    | .uint64 v => .ok (.int64 (wrapInt64 v))
    | .double v => .ok (.float64 v)
    | .bool v => .ok (.bool v)
    | .null => .ok .null
    | _ => .error .unsupportedConstant
  | _ => .error .notALiteral

/-- Source function `toComparisonOperator`. -/
def toComparisonOperator (fn : String) : Except Err ComparisonOperator :=
  if fn = "_==_" then .ok .CompareEq
  else if fn = "_!=_" then .ok .CompareNeq
  else if fn = "_<_" then .ok .CompareLt
  else if fn = "_>_" then .ok .CompareGt
  else if fn = "_<=_" then .ok .CompareLte
  else if fn = "_>=_" then .ok .CompareGte
  else .error (.unsupportedComparisonOperator fn)

/-- Source function `evaluateBoolExpr`: the Go result `(val, ok, err)` is an
`Except Err (Option Bool)`, `none` standing for `ok = false`. -/
def evaluateBoolExpr (expr : Expr) : Except Err (Option Bool) :=
  match getConstValue expr with
  | .ok literal =>
    match literal with
    | .bool b => .ok (some b)
    | _ => .ok none
  | .error _ =>
    match expr with
    | .call _ function args =>
      if function = "!_" then
        match args with
        | [a] =>
          match evaluateBoolExpr a with
          | .error err => .error err
          | .ok none => .ok none
          | .ok (some val) => .ok (some (!val))
        | _ => .error .boolNotExpectsOne
      else .ok none
    | _ => .ok none

/-- Source function `evaluateBool`: the call is wrapped back into an expression. -/
def evaluateBool (target : Option Expr) (function : String) (args : List Expr) :
    Except Err (Option Bool) :=
  evaluateBoolExpr (.call target function args)

/-- Source function `evaluateNumeric`: the Go result `(value, ok, err)` is an
`Except Err (Option Int)`, `none` standing for `ok = false`. -/
def evaluateNumeric (env : Env) (expr : Expr) : Except Err (Option Int) :=
  match getConstValue expr with
  | .ok literal =>
    match literal with
    | .int64 v => .ok (some v)
    | .float64 v => .ok (some (env.f64ToInt64 v))
    | _ => .ok none
  | .error _ =>
    match expr with
    | .call _ function args =>
      if function = "now" then .ok (some env.timeNowUnix)
      else if function = "_+_" ∨ function = "_-_" ∨ function = "_*_" then
        match args with
        | [a, b] =>
          match evaluateNumeric env a with
          | .error err => .error err
          | .ok none => .ok none
          | .ok (some left) =>
            match evaluateNumeric env b with
            | .error err => .error err
            | .ok none => .ok none
            | .ok (some right) =>
              if function = "_+_" then .ok (some (wrapInt64 (left + right)))
              else if function = "_-_" then .ok (some (wrapInt64 (left - right)))
              else if function = "_*_" then .ok (some (wrapInt64 (left * right)))
              else .error (.unsupportedArithmetic function)
        | _ => .error .arithmeticExpectsTwo
      else .ok none
    | _ => .ok none

/-- Source function `buildValueExpr`: the candidate interpretations of an operand, tried in
the order of the source. -/
def buildValueExpr (env : Env) (schema : Schema) (expr : Expr) : Except Err ValueExpr :=
  match getIdentName expr with
  | .ok identName =>
    match schema.Field identName with
    | none => .error (.unknownIdentifier identName)
    | some _ => .ok (.FieldRef identName)
  | .error _ =>
  match getConstValue expr with
  | .ok literal => .ok (.LiteralValue literal)
  | .error _ =>
  match evaluateNumeric env expr with
  | .error err => .error err
  | .ok (some value) => .ok (.LiteralValue (.int64 value))
  | .ok none =>
  match evaluateBoolExpr expr with
  | .error err => .error err
  | .ok (some boolVal) => .ok (.LiteralValue (.bool boolVal))
  | .ok none =>
  match expr with
  | .call _ function args =>
    if function = "size" then
      match args with
      | [a] =>
        match buildValueExpr env schema a with
        | .error err => .error err
        | .ok arg => .ok (.FunctionValue "size" [arg])
      | _ => .error .sizeExpectsOne
    else if function = "now" then .ok (.LiteralValue (.int64 env.timeNowUnix))
    else if function = "_+_" ∨ function = "_-_" ∨ function = "_*_" then
      match evaluateNumeric env expr with
      | .error err => .error err
      | .ok (some value) => .ok (.LiteralValue (.int64 value))
      | .ok none => .error .unsupportedValue
    else .error .unsupportedValue
  | _ => .error .unsupportedValue

/-- The element loop of `buildInCondition`: the values of the list elements in
order, or the first error. -/
def buildValues (env : Env) (schema : Schema) : List Expr → Except Err (List ValueExpr)
  | [] => .ok []
  | element :: rest =>
    match buildValueExpr env schema element with
    | .error err => .error err
    | .ok value =>
      match buildValues env schema rest with
      | .error err => .error err
      | .ok values => .ok (value :: values)

/-- Source function `buildComparisonCondition`. -/
def buildComparisonCondition (env : Env) (schema : Schema)
    (function : String) (args : List Expr) : Except Err Condition :=
  match args with
  | [a0, a1] =>
    match toComparisonOperator function with
    | .error err => .error err
    | .ok op =>
      match buildValueExpr env schema a0 with
      | .error err => .error err
      | .ok left =>
        match buildValueExpr env schema a1 with
        | .error err => .error err
        | .ok right =>
          match left with
          | .FieldRef name =>
            match schema.Field name with
            | none => .error (.unknownIdentifier name)
            | some fieldDef =>
              match (if fieldDef.Kind = .FieldKindVirtualAlias
                     then schema.ResolveAlias name else some fieldDef) with
              | none => .error (.invalidAlias name)
              | some resolved =>
                match resolved.AllowedComparisonOps with
                | some allowedOps =>
                  if op ∈ allowedOps then .ok (.ComparisonCondition left op right)
                  else .error (.operatorNotAllowed op name)
                | none => .ok (.ComparisonCondition left op right)
          | _ => .ok (.ComparisonCondition left op right)
  | _ => .error .comparisonExpectsTwo

/-- Source function `buildInCondition`. The first block (identifier on the left) either
returns (`some`) or falls through (`none`) to the second block (identifier
on the right). -/
def buildInCondition (env : Env) (schema : Schema) (args : List Expr) :
    Except Err Condition :=
  match args with
  | [a0, a1] =>
    let first : Option (Except Err Condition) :=
      match getIdentName a0 with
      | .error _ => none
      | .ok identName =>
        match schema.Field identName with
        | none => some (.error (.unknownIdentifier identName))
        | some field =>
          if field.Kind = .FieldKindVirtualAlias ∧ schema.ResolveAlias identName = none then
            some (.error (.invalidAlias identName))
          else
            match a1 with
            | .list elements =>
              match buildValues env schema elements with
              | .error err => some (.error err)
              | .ok values => some (.ok (.InCondition (.FieldRef identName) values))
            | _ => none
    match first with
    | some result => result
    | none =>
      match getIdentName a1 with
      | .error _ => .error .invalidIn
      | .ok identName =>
        match schema.Field identName with
        | none => .error (.unknownIdentifier identName)
        | some _ =>
          match buildValueExpr env schema a0 with
          | .error err => .error err
          | .ok element => .ok (.ElementInCondition element identName)
  | _ => .error .inExpectsTwo

/-- Source function `buildContainsCondition`. -/
def buildContainsCondition (schema : Schema) (target : Option Expr) (args : List Expr) :
    Except Err Condition :=
  match target with
  | none => .error .containsRequiresTarget
  | some t =>
    match getIdentName t with
    | .error err => .error err
    | .ok targetName =>
      match schema.Field targetName with
      | none => .error (.unknownIdentifier targetName)
      | some field =>
        if !field.SupportsContains then .error (.containsNoContains targetName)
        else
          match args with
          | [a] =>
            match getConstValue a with
            | .error err => .error (.containsLiteralOnly err)
            | .ok (.string str) => .ok (.ContainsCondition targetName str)
            | .ok _ => .error .containsMustBeString
          | _ => .error .containsExpectsOne

mutual
/-- Source function `buildCondition`: dispatch on the kind of the expression node. -/
def buildCondition (env : Env) (schema : Schema) (expr : Expr) : Except Err Condition :=
  match expr with
  | .call target function args => buildCallCondition env schema target function args
  | .const c =>
    match getConstValue (.const c) with
    | .error err => .error err
    | .ok (.bool v) => .ok (.ConstantCondition v)
    | .ok (.int64 v) => .ok (.ConstantCondition (v != 0))
    | .ok (.float64 v) => .ok (.ConstantCondition v.neZero)
    | .ok _ => .error .filterMustBeBoolean
  | .ident name =>
    match schema.Field name with
    | none => .error (.unknownIdentifier name)
    | some field =>
      if field.Typ ≠ .FieldTypeBool then .error (.identifierNotBoolean name)
      else .ok (.FieldPredicateCondition name)
  | _ => .error .unsupportedTopLevel
/-- Source function `buildCallCondition`: dispatch on the function symbol of a call. -/
def buildCallCondition (env : Env) (schema : Schema)
    (target : Option Expr) (function : String) (args : List Expr) : Except Err Condition :=
  if function = "_&&_" then
    match args with
    | [a0, a1] =>
      match buildCondition env schema a0 with
      | .error err => .error err
      | .ok left =>
        match buildCondition env schema a1 with
        | .error err => .error err
        | .ok right => .ok (.LogicalCondition .LogicalAnd left right)
    | _ => .error .andExpectsTwo
  else if function = "_||_" then
    match args with
    | [a0, a1] =>
      match buildCondition env schema a0 with
      | .error err => .error err
      | .ok left =>
        match buildCondition env schema a1 with
        | .error err => .error err
        | .ok right => .ok (.LogicalCondition .LogicalOr left right)
    | _ => .error .orExpectsTwo
  else if function = "!_" then
    match args with
    | [a] =>
      match buildCondition env schema a with
      | .error err => .error err
      | .ok child => .ok (.NotCondition child)
    | _ => .error .notExpectsOne
  else if function = "_==_" ∨ function = "_!=_" ∨ function = "_<_" ∨ function = "_>_"
      ∨ function = "_<=_" ∨ function = "_>=_" then
    buildComparisonCondition env schema function args
  else if function = "@in" then buildInCondition env schema args
  else if function = "contains" then buildContainsCondition schema target args
  else
    match evaluateBool target function args with
    | .error err => .error err
    | .ok (some val) => .ok (.ConstantCondition val)
    | .ok none => .error (.unsupportedCall function)
end

/-! ## Field names of a condition

The field names a built condition mentions, and the schema facts they are
expected to satisfy. -/

mutual
/-- The names of the `FieldRef`s of a value expression, function arguments
included. -/
def ValueExpr.fieldNames : ValueExpr → List String
  | .FieldRef name => [name]
  | .LiteralValue _ => []
  | .FunctionValue _ args => ValueExpr.fieldNamesList args
/-- The names of the `FieldRef`s of a list of value expressions. -/
def ValueExpr.fieldNamesList : List ValueExpr → List String
  | [] => []
  | v :: vs => ValueExpr.fieldNames v ++ ValueExpr.fieldNamesList vs
end

/-- Every field name occurring anywhere in a condition: the field of a
`FieldPredicate`, the `FieldRef`s of both sides of a `Comparison`, of the
left side and the values of an `In`, of the element of an `ElementIn`, the
field of an `ElementIn` and the field of a `Contains`. -/
def Condition.fieldNames : Condition → List String
  | .ConstantCondition _ => []
  | .FieldPredicateCondition field => [field]
  | .LogicalCondition _ left right => left.fieldNames ++ right.fieldNames
  | .NotCondition child => child.fieldNames
  | .ComparisonCondition left _ right =>
    ValueExpr.fieldNames left ++ ValueExpr.fieldNames right
  | .InCondition left values =>
    ValueExpr.fieldNames left ++ ValueExpr.fieldNamesList values
  | .ElementInCondition element field => ValueExpr.fieldNames element ++ [field]
  | .ContainsCondition field _ => [field]

/-- The fields of the `Contains` nodes of a condition. -/
def Condition.containsFields : Condition → List String
  | .LogicalCondition _ left right => left.containsFields ++ right.containsFields
  | .NotCondition child => child.containsFields
  | .ContainsCondition field _ => [field]
  | _ => []

/-- Every name of the list is found by `schema.Field`. -/
def Schema.Knows (schema : Schema) (names : List String) : Prop :=
  ∀ name ∈ names, ∃ field, schema.Field name = some field

/-- Every name of the list is found by `schema.Field`, with
`SupportsContains` set. -/
def Schema.AllowsContains (schema : Schema) (names : List String) : Prop :=
  ∀ name ∈ names, ∃ field, schema.Field name = some field ∧ field.SupportsContains = true

/-! ## Constant arithmetic trees

The expression trees made only of `int64` literals and two-argument `_+_`,
`_-_`, `_*_` calls, with their value as the specification words it: 64-bit
two's-complement arithmetic. -/

/-- The three arithmetic function symbols. -/
inductive ArithOp where
  | add | sub | mul
deriving DecidableEq

/-- The function symbol of an arithmetic operator. -/
def ArithOp.symbol : ArithOp → String
  | .add => "_+_"
  | .sub => "_-_"
  | .mul => "_*_"

/-- The operator on unbounded integers. -/
def ArithOp.apply : ArithOp → Int → Int → Int
  | .add, a, b => a + b
  | .sub, a, b => a - b
  | .mul, a, b => a * b

/-- A tree of `int64` literals and binary arithmetic calls. -/
inductive ArithTree where
  | lit (n : Int)
  | node (op : ArithOp) (left right : ArithTree)
deriving DecidableEq

/-- The expression tree the parser hands over for an arithmetic tree. -/
def ArithTree.toExpr : ArithTree → Expr
  | .lit n => .const (.int64 n)
  | .node op left right => .call none op.symbol [left.toExpr, right.toExpr]

/-- Every literal of the tree is an `int64`. -/
def ArithTree.literalsInRange : ArithTree → Bool
  | .lit n => decide (-(2 ^ 63) ≤ n) && decide (n < 2 ^ 63)
  | .node _ left right => left.literalsInRange && right.literalsInRange

/-- The value of the tree in 64-bit two's-complement arithmetic: the result
of every operation is reduced to the `int64` range. -/
def ArithTree.value64 : ArithTree → Int
  | .lit n => n
  | .node op left right => wrapInt64 (op.apply left.value64 right.value64)

/-- The value of the tree in unbounded integer arithmetic. -/
def ArithTree.exactValue : ArithTree → Int
  | .lit n => n
  | .node op left right => op.apply left.exactValue right.exactValue

/-! ## Function nodes of a condition -/

mutual
/-- The `FunctionValue` nodes of a value expression, nested ones included,
each as its name and argument list. -/
def ValueExpr.functionNodes : ValueExpr → List (String × List ValueExpr)
  | .FieldRef _ => []
  | .LiteralValue _ => []
  | .FunctionValue name args => (name, args) :: ValueExpr.functionNodesList args
/-- The `FunctionValue` nodes of a list of value expressions. -/
def ValueExpr.functionNodesList : List ValueExpr → List (String × List ValueExpr)
  | [] => []
  | v :: vs => ValueExpr.functionNodes v ++ ValueExpr.functionNodesList vs
end

/-- The `FunctionValue` nodes occurring anywhere in a condition. -/
def Condition.functionNodes : Condition → List (String × List ValueExpr)
  | .ConstantCondition _ => []
  | .FieldPredicateCondition _ => []
  | .LogicalCondition _ left right => left.functionNodes ++ right.functionNodes
  | .NotCondition child => child.functionNodes
  | .ComparisonCondition left _ right =>
    ValueExpr.functionNodes left ++ ValueExpr.functionNodes right
  | .InCondition left values =>
    ValueExpr.functionNodes left ++ ValueExpr.functionNodesList values
  | .ElementInCondition element _ => ValueExpr.functionNodes element
  | .ContainsCondition _ _ => []

/-- A function node as the builder makes it: named `size`, with exactly one
argument, itself the result of `buildValueExpr` on some expression. -/
def IsSizeNode (env : Env) (schema : Schema) (node : String × List ValueExpr) : Prop :=
  node.1 = "size" ∧
    ∃ (arg : ValueExpr) (e : Expr), node.2 = [arg] ∧ buildValueExpr env schema e = .ok arg

/-! ## Negation chains -/

/-- The `n`-fold negation `!...!e`, each `!_` call with exactly the one
argument. -/
def negations : Nat → Expr → Expr
  | 0, e => e
  | n + 1, e => .call none "!_" [negations n e]

/-! ## A concrete schema and environment -/

/-- An integer field restricted to `==` and `!=`. -/
def fieldId : Field :=
  { Name := "id", Typ := .FieldTypeInt, Kind := .FieldKindNormal,
    AllowedComparisonOps := some [.CompareEq, .CompareNeq], SupportsContains := false }

/-- A string field with no operator restriction (nil map) that supports
`contains`. -/
def fieldContent : Field :=
  { Name := "content", Typ := .FieldTypeString, Kind := .FieldKindNormal,
    AllowedComparisonOps := none, SupportsContains := true }

/-- A field whose operator map is allocated but holds no key. -/
def fieldTag : Field :=
  { Name := "tag", Typ := .FieldTypeString, Kind := .FieldKindNormal,
    AllowedComparisonOps := some [], SupportsContains := false }

/-- A boolean field. -/
def fieldPinned : Field :=
  { Name := "pinned", Typ := .FieldTypeBool, Kind := .FieldKindNormal,
    AllowedComparisonOps := none, SupportsContains := false }

/-- A virtual alias whose resolution fails in `exampleSchema`. -/
def fieldDangling : Field :=
  { Name := "dangling", Typ := .FieldTypeInt, Kind := .FieldKindVirtualAlias,
    AllowedComparisonOps := none, SupportsContains := false }

/-- A schema with the five fields above; `ResolveAlias` returns a normal
field itself and fails on the alias `dangling`. -/
def exampleSchema : Schema where
  Field := fun name =>
    if name = "id" then some fieldId
    else if name = "content" then some fieldContent
    else if name = "tag" then some fieldTag
    else if name = "pinned" then some fieldPinned
    else if name = "dangling" then some fieldDangling
    else none
  ResolveAlias := fun name =>
    if name = "id" then some fieldId
    else if name = "content" then some fieldContent
    else if name = "tag" then some fieldTag
    else if name = "pinned" then some fieldPinned
    else none

/-- A build at Unix time 1700000000 on a platform whose float conversion
is irrelevant to the examples. -/
def exampleEnv : Env :=
  { timeNowUnix := 1700000000, f64ToInt64 := fun _ => 0 }

/-- A second build environment, three seconds after `exampleEnv`. -/
def exampleEnvLater : Env :=
  { timeNowUnix := 1700000003, f64ToInt64 := fun _ => 0 }

end Filter

/-! # Resource names (`server/router/api/v1/resource_name.go`)

Go strings are modelled by `String`; the library functions of package
`strings` the file calls are modelled on the characters of the string, for
the one-character separator `/` the file passes. A string is taken to be
valid UTF-8, where splitting at the byte `/` and at the character `/` agree. -/

namespace ResourceName

/-- The pieces of a character sequence between the occurrences of `sep`;
one piece more than there are separators. -/
def splitChars (sep : Char) : List Char → List (List Char)
  | [] => [[]]
  | c :: cs =>
    if c = sep then [] :: splitChars sep cs
    else
      match splitChars sep cs with
      | [] => [[c]]
      | p :: ps => (c :: p) :: ps

/-- Go `strings.Split(s, sep)` for a one-character separator. -/
def stringsSplit (s : String) (sep : Char) : List String :=
  (splitChars sep s.data).map String.mk

/-- Go `strings.Join(elems, sep)`. -/
def stringsJoin : List String → String → String
  | [], _ => ""
  | [p], _ => p
  | p :: q :: rest, sep => p ++ sep ++ stringsJoin (q :: rest) sep

/-- Go `strings.HasPrefix(s, pre)`. -/
def stringsHasPrefix (s pre : String) : Bool :=
  pre.data.isPrefixOf s.data

/-- Go `strings.TrimPrefix(s, pre)`. -/
def stringsTrimPrefix (s pre : String) : String :=
  if stringsHasPrefix s pre then String.mk (s.data.drop pre.data.length) else s

/-- Go `strings.Contains(s, sep)` for a one-character `sep`. -/
def stringsContains (s : String) (sep : Char) : Bool :=
  s.data.contains sep

/-- One constructor per error site of the file parts embedded here, with the
values its message formats. -/
inductive NameErr where
  | invalidRequest (name : String)
  | invalidPrefix (tokenPrefix name : String)
  | emptyToken (name tokenPrefix : String)
  | settingWrongPrefix (expected name : String)
  | settingEmptyKey (name : String)
  | settingKeyHasSlash (name : String)
deriving DecidableEq

/-- The constant `WorkspaceSettingNamePrefix`. -/
def WorkspaceSettingNamePrefix : String := "workspace/settings/"

/-- The constant `MemoNamePrefix`. -/
def MemoNamePrefix : String := "memos/"

/-- The `for i, tokenPrefix := range tokenPrefixes` loop of
`GetNameParentTokens`, from index `i` on, `tokens` being the tokens appended
so far. The indexes `2*i` and `2*i+1` are within `parts` by the length test
that precedes the loop. -/
def tokensLoop (name : String) (parts : List String) :
    Nat → List String → List String → Except NameErr (List String)
  | _, [], tokens => .ok tokens
  | i, tokenPrefix :: rest, tokens =>
    if parts.getD (2 * i) "" ++ "/" ≠ tokenPrefix then
      .error (.invalidPrefix tokenPrefix name)
    else if parts.getD (2 * i + 1) "" = "" then
      .error (.emptyToken name tokenPrefix)
    else tokensLoop name parts (i + 1) rest (tokens ++ [parts.getD (2 * i + 1) ""])

/-- Source function `GetNameParentTokens`: the tokens of a resource name. -/
def GetNameParentTokens (name : String) (tokenPrefixes : List String) :
    Except NameErr (List String) :=
  let parts := stringsSplit name '/'
  if parts.length ≠ 2 * tokenPrefixes.length then .error (.invalidRequest name)
  else tokensLoop name parts 0 tokenPrefixes []

/-- Source function `ExtractWorkspaceSettingKeyFromName`; the Go result
`(string, error)` is kept as a pair, `none` standing for the nil error. -/
def ExtractWorkspaceSettingKeyFromName (name : String) : String × Option NameErr :=
  let settingPrefix := "workspace/settings/"
  if !stringsHasPrefix name settingPrefix then
    ("", some (.settingWrongPrefix settingPrefix name))
  else
    let settingKey := stringsTrimPrefix name settingPrefix
    if settingKey = "" then ("", some (.settingEmptyKey name))
    else if stringsContains settingKey '/' then ("", some (.settingKeyHasSlash name))
    else (settingKey, none)

/-- Source function `ExtractMemoUIDFromName`; the Go result `(string, error)`
is kept as a pair, `none` standing for the nil error. -/
def ExtractMemoUIDFromName (name : String) : String × Option NameErr :=
  match GetNameParentTokens name [MemoNamePrefix] with
  | .error err => ("", some err)
  | .ok tokens => (tokens.getD 0 "", none)

/-- The sequence `s1, t1, s2, t2, ...` of two sequences of equal length. -/
def interleave : List String → List String → List String
  | s :: ss, t :: ts => s :: t :: interleave ss ts
  | _, _ => []

/-- The resource name `s1/t1/s2/t2/.../sk/tk`. -/
def resourceName (segments tokens : List String) : String :=
  stringsJoin (interleave segments tokens) "/"

/-- The character-level form of `stringsJoin` for a one-character
separator. -/
def joinChars (sep : Char) : List (List Char) → List Char
  | [] => []
  | [p] => p
  | p :: q :: rest => p ++ sep :: joinChars sep (q :: rest)

/-- A string without the character `/`. -/
def SlashFree (s : String) : Prop := '/' ∉ s.data

end ResourceName

/-! # Listing memo relations (`store/db/mysql/memo_relation.go`,
`store/db/postgres/memo_relation.go`)

The part of `ListMemoRelations` that assembles the statement: the `where`
predicates, the argument list, and the text handed to `QueryContext`. The
filter pipeline (`filter.Parse`, `ConvertExprToSQL`) is declared outside
these files and is a parameter: `parse` for `filter.Parse`, `convert` for
`ConvertExprToSQL` run on a fresh convert context, returning the text of its
buffer and its arguments. -/

namespace Store

/-- A bind value of the statement (Go `any`): a memo id, a relation type, or
a value bound by the filter converter. -/
inductive BindArg where
  | int32 (v : Int)
  | relationType (v : String)
  | filterValue (v : Filter.Value)
deriving DecidableEq

/-- The fields of `store.FindMemoRelation` the function reads; `none` is the
nil pointer. -/
structure FindMemoRelation where
  MemoID : Option Int
  RelatedMemoID : Option Int
  Typ : Option String
  MemoFilter : Option String

/-- Modelled from the spec: the PostgreSQL store's `placeholder(n)`, declared
outside this file, the numbered placeholder `$N`. -/
def placeholder (n : Nat) : String :=
  "$" ++ toString n

/-- The two predicates the filter condition is spliced into. -/
def filterPredicates (condition : String) : List String :=
  ["memo_id IN (SELECT id FROM memo WHERE " ++ condition ++ ")",
   "related_memo_id IN (SELECT id FROM memo WHERE " ++ condition ++ ")"]

/-- MySQL store: `where` and `args` after the `MemoID`, `RelatedMemoID` and
`Type` tests. -/
def MySQL.basePredicates (find : FindMemoRelation) : List String × List BindArg :=
  let r : List String × List BindArg := (["TRUE"], [])
  let r := match find.MemoID with
    | some id => (r.1 ++ ["`memo_id` = ?"], r.2 ++ [.int32 id])
    | none => r
  let r := match find.RelatedMemoID with
    | some id => (r.1 ++ ["`related_memo_id` = ?"], r.2 ++ [.int32 id])
    | none => r
  match find.Typ with
  | some t => (r.1 ++ ["`type` = ?"], r.2 ++ [.relationType t])
  | none => r

/-- MySQL store: `where` and `args` as `ListMemoRelations` has them when it
calls `QueryContext`, or the error of the filter pipeline. -/
def MySQL.listMemoRelationsWhere {ε : Type} (parse : String → Except ε Filter.Expr)
    (convert : Filter.Expr → Except ε (String × List BindArg))
    (find : FindMemoRelation) : Except ε (List String × List BindArg) :=
  let base := MySQL.basePredicates find
  match find.MemoFilter with
  | none => .ok base
  | some memoFilter =>
    match parse memoFilter with
    | .error err => .error err
    | .ok parsedExpr =>
      match convert parsedExpr with
      | .error err => .error err
      | .ok (condition, convertArgs) =>
        if condition ≠ "" then
          .ok (base.1 ++ filterPredicates condition, base.2 ++ (convertArgs ++ convertArgs))
        else .ok base

/-- MySQL store, `ListMemoRelations` up to the query: the statement text and
the arguments passed to `QueryContext`. -/
def MySQL.ListMemoRelations {ε : Type} (parse : String → Except ε Filter.Expr)
    (convert : Filter.Expr → Except ε (String × List BindArg))
    (find : FindMemoRelation) : Except ε (String × List BindArg) :=
  match MySQL.listMemoRelationsWhere parse convert find with
  | .error err => .error err
  | .ok (predicates, args) =>
    .ok ("SELECT `memo_id`, `related_memo_id`, `type` FROM `memo_relation` WHERE "
      ++ ResourceName.stringsJoin predicates " AND ", args)

/-- PostgreSQL store: `where` and `args` after the `MemoID`, `RelatedMemoID`
and `Type` tests. -/
def Postgres.basePredicates (find : FindMemoRelation) : List String × List BindArg :=
  let r : List String × List BindArg := (["1 = 1"], [])
  let r := match find.MemoID with
    | some id => (r.1 ++ ["memo_id = " ++ placeholder (r.2.length + 1)], r.2 ++ [.int32 id])
    | none => r
  let r := match find.RelatedMemoID with
    | some id =>
      (r.1 ++ ["related_memo_id = " ++ placeholder (r.2.length + 1)], r.2 ++ [.int32 id])
    | none => r
  match find.Typ with
  | some t => (r.1 ++ ["type = " ++ placeholder (r.2.length + 1)], r.2 ++ [.relationType t])
  | none => r

/-- PostgreSQL store: `where` and `args` as `ListMemoRelations` has them when
it calls `QueryContext`, or the error of the filter pipeline. The converter
runs with `ArgsOffset = len(args)`. -/
def Postgres.listMemoRelationsWhere {ε : Type} (parse : String → Except ε Filter.Expr)
    (convert : Nat → Filter.Expr → Except ε (String × List BindArg))
    (find : FindMemoRelation) : Except ε (List String × List BindArg) :=
  let base := Postgres.basePredicates find
  match find.MemoFilter with
  | none => .ok base
  | some memoFilter =>
    match parse memoFilter with
    | .error err => .error err
    | .ok parsedExpr =>
      match convert base.2.length parsedExpr with
      | .error err => .error err
      | .ok (condition, convertArgs) =>
        if condition ≠ "" then
          .ok (base.1 ++ filterPredicates condition, base.2 ++ convertArgs)
        else .ok base

/-- PostgreSQL store, `ListMemoRelations` up to the query: the statement text
and the arguments passed to `QueryContext`. -/
def Postgres.ListMemoRelations {ε : Type} (parse : String → Except ε Filter.Expr)
    (convert : Nat → Filter.Expr → Except ε (String × List BindArg))
    (find : FindMemoRelation) : Except ε (String × List BindArg) :=
  match Postgres.listMemoRelationsWhere parse convert find with
  | .error err => .error err
  | .ok (predicates, args) =>
    .ok ("\n\t\tSELECT\n\t\t\tmemo_id,\n\t\t\trelated_memo_id,\n\t\t\ttype\n\t\tFROM memo_relation\n\t\tWHERE "
      ++ ResourceName.stringsJoin predicates " AND ", args)

/-- A request for the relations of memo 5 among the memos of creator 7. -/
def exampleFind : FindMemoRelation :=
  { MemoID := some 5, RelatedMemoID := none, Typ := none,
    MemoFilter := some "creator_id == 7" }

/-- A parser for the example: every filter text parses to `creator_id == 7`. -/
def exampleParse : String → Except String Filter.Expr :=
  fun _ => .ok (.call none "_==_" [.ident "creator_id", .const (.int64 7)])

/-- A PostgreSQL lowering for the example: one numbered placeholder after
the offset, one bound value. -/
def examplePostgresConvert : Nat → Filter.Expr → Except String (String × List BindArg) :=
  fun offset _ => .ok ("memo.creator_id = " ++ placeholder (offset + 1), [.int32 7])

/-- A MySQL lowering for the example: one positional placeholder, one bound
value. -/
def exampleMySQLConvert : Filter.Expr → Except String (String × List BindArg) :=
  fun _ => .ok ("`memo`.`creator_id` = ?", [.int32 7])

end Store

/-! # Build targets (`.dagger/lib.go`, `.dagger/main.go`)

The build matrix, its naming functions and `filterTargets`. `fmt.Sprintf`
with `%s` verbs is string concatenation; the functions of package `strings`
are those of `ResourceName`, and `strings.TrimSpace` below. -/

namespace Dagger

/-- The struct `BuildMatrix`. -/
structure BuildMatrix where
  OS : String
  Arch : String
  ArchLevel : String
deriving DecidableEq

/-- The variable `DockerNoVariants`: Docker platforms that do not support
variants. -/
def DockerNoVariants : List String := ["386", "ppc64le", "riscv64"]

/-- The variable `TARGETS` of `main.go`. -/
def TARGETS : List BuildMatrix := [
  ⟨"linux", "amd64", "v1"⟩,
  ⟨"linux", "amd64", "v2"⟩,
  ⟨"linux", "amd64", "v3"⟩,
  ⟨"linux", "arm", "v5"⟩,
  ⟨"linux", "arm", "v6"⟩,
  ⟨"linux", "arm", "v7"⟩,
  ⟨"linux", "arm64", ""⟩,
  ⟨"linux", "386", "sse2"⟩,
  ⟨"linux", "ppc64le", "power8"⟩,
  ⟨"linux", "riscv64", "rva20u64"⟩,
  ⟨"linux", "s390x", ""⟩,
  ⟨"darwin", "amd64", "v1"⟩,
  ⟨"darwin", "amd64", "v2"⟩,
  ⟨"darwin", "amd64", "v3"⟩,
  ⟨"darwin", "arm64", ""⟩,
  ⟨"windows", "amd64", "v1"⟩,
  ⟨"windows", "amd64", "v2"⟩,
  ⟨"windows", "amd64", "v3"⟩,
  ⟨"windows", "arm64", ""⟩,
  ⟨"windows", "386", "sse2"⟩,
  ⟨"freebsd", "amd64", "v1"⟩,
  ⟨"freebsd", "amd64", "v2"⟩,
  ⟨"freebsd", "amd64", "v3"⟩,
  ⟨"freebsd", "arm64", ""⟩]

/-- Source function `DockerPlatform`: the platform string in the format
accepted by Docker. -/
def BuildMatrix.DockerPlatform (m : BuildMatrix) : String :=
  if m.ArchLevel = "" ∨ DockerNoVariants.contains m.Arch then
    m.OS ++ "/" ++ m.Arch
  else m.OS ++ "/" ++ m.Arch ++ "/" ++ m.ArchLevel

/-- Source function `GoArm`: the `GOARM` value. -/
def BuildMatrix.GoArm (m : BuildMatrix) : String :=
  if m.Arch ≠ "arm" then "" else ResourceName.stringsTrimPrefix m.ArchLevel "v"

/-- Source function `UnameArch`: the uname-compatible architecture name. -/
def BuildMatrix.UnameArch (m : BuildMatrix) : String :=
  if m.Arch = "amd64" then "x86_64"
  else if m.Arch = "386" then "i386"
  else if m.Arch = "arm" then "armv" ++ m.GoArm ++ "l"
  else if m.Arch = "arm64" then "arm64"
  else m.Arch

/-- Source function `ArchiveName`: the archive file name of the target. -/
def BuildMatrix.ArchiveName (m : BuildMatrix) (version : String) : String :=
  let arch := m.UnameArch
  let arch :=
    if m.Arch = "amd64" ∧ m.ArchLevel ≠ "" ∧ m.ArchLevel ≠ "v1" then arch ++ "_" ++ m.ArchLevel
    else arch
  let ext := "tar.gz"
  let ext := if m.OS = "windows" then "zip" else ext
  "memos-" ++ version ++ "-" ++ m.OS ++ "-" ++ arch ++ "." ++ ext

/-- Go `unicode.IsSpace`: the white space characters of Unicode. -/
def isSpace (c : Char) : Bool :=
  let n := c.toNat
  (0x09 ≤ n && n ≤ 0x0D) || n = 0x20 || n = 0x85 || n = 0xA0 || n = 0x1680 ||
    (0x2000 ≤ n && n ≤ 0x200A) || n = 0x2028 || n = 0x2029 || n = 0x202F ||
    n = 0x205F || n = 0x3000

/-- Go `strings.TrimSpace(s)`: `s` without its leading and trailing white
space. -/
def stringsTrimSpace (s : String) : String :=
  String.mk ((s.data.dropWhile isSpace).reverse.dropWhile isSpace).reverse

/-- The two errors of `filterTargets`, with the values their messages
format. -/
inductive BuildErr where
  | platformNotFound (p : String) (available : String)
  | noValidPlatforms
deriving DecidableEq

/-- The two inner loops of `filterTargets` for one requested entry: the first
target whose Docker platform is the entry, else, when the entry has exactly
two `/`-separated parts, the first target with that OS and architecture. -/
def selectTarget (p : String) : Option BuildMatrix :=
  match TARGETS.find? (fun t => t.DockerPlatform = p) with
  | some t => some t
  | none =>
    let parts := ResourceName.stringsSplit p '/'
    if parts.length = 2 then
      TARGETS.find? (fun t => t.OS = parts.getD 0 "" ∧ t.Arch = parts.getD 1 "")
    else none

/-- The loop of `filterTargets` over the requested entries, `filtered` being
the targets appended so far. -/
def filterLoop : List String → List BuildMatrix → Except BuildErr (List BuildMatrix)
  | [], filtered => .ok filtered
  | p :: rest, filtered =>
    let p := stringsTrimSpace p
    if p = "" then filterLoop rest filtered
    else
      match selectTarget p with
      | some t => filterLoop rest (filtered ++ [t])
      | none =>
        .error (.platformNotFound p
          (ResourceName.stringsJoin (TARGETS.map BuildMatrix.DockerPlatform) ", "))

/-- Source function `filterTargets`: the subset of `TARGETS` matching the
platforms string. The Go result `([]BuildMatrix, error)` is kept as a pair,
the nil slice being `[]` and the nil error `none`. -/
def filterTargets (platforms : String) : List BuildMatrix × Option BuildErr :=
  let platforms := stringsTrimSpace platforms
  if platforms = "" ∨ platforms = "all" then (TARGETS, none)
  else
    let requested := ResourceName.stringsSplit platforms ','
    match filterLoop requested [] with
    | .error err => ([], some err)
    | .ok filtered =>
      if filtered.length = 0 then ([], some .noValidPlatforms)
      else (filtered, none)

/-- The comma-separated entries of a platforms string that are non-empty after
trimming, trimmed, in request order. -/
def requestedEntries (platforms : String) : List String :=
  ((ResourceName.stringsSplit (stringsTrimSpace platforms) ',').map stringsTrimSpace).filter
    (fun p => p ≠ "")

/-- A requested entry matches a target exactly (it is the target's Docker
platform) or by the `os/arch` fallback (it has exactly the two parts OS and
architecture of the target). -/
def Matches (p : String) (t : BuildMatrix) : Prop :=
  t.DockerPlatform = p ∨ ResourceName.stringsSplit p '/' = [t.OS, t.Arch]

end Dagger

namespace Filter

/-! ## Unfolding lemmas -/

theorem buildValueExpr_ident (env : Env) (s : Schema) (name : String) :
    buildValueExpr env s (.ident name) =
      match s.Field name with
      | none => .error (.unknownIdentifier name)
      | some _ => .ok (.FieldRef name) := by
  simp [buildValueExpr, getIdentName]

theorem buildValueExpr_const (env : Env) (s : Schema) (c : Constant) (v : Value)
    (h : getConstValue (.const c) = .ok v) :
    buildValueExpr env s (.const c) = .ok (.LiteralValue v) := by
  simp [buildValueExpr, getIdentName, h]

theorem toComparisonOperator_ok {fn : String} {op : ComparisonOperator}
    (h : toComparisonOperator fn = .ok op) :
    fn = "_==_" ∨ fn = "_!=_" ∨ fn = "_<_" ∨ fn = "_>_" ∨ fn = "_<=_" ∨ fn = "_>=_" := by
  unfold toComparisonOperator at h
  split_ifs at h <;> simp_all

theorem buildCondition_comparison (env : Env) (s : Schema) (target : Option Expr)
    {fn : String} {op : ComparisonOperator} (h : toComparisonOperator fn = .ok op)
    (args : List Expr) :
    buildCondition env s (.call target fn args) = buildComparisonCondition env s fn args := by
  have h' := toComparisonOperator_ok h
  rw [buildCondition]
  unfold buildCallCondition
  have h1 : fn ≠ "_&&_" := by rcases h' with h | h | h | h | h | h <;> subst h <;> decide
  have h2 : fn ≠ "_||_" := by rcases h' with h | h | h | h | h | h <;> subst h <;> decide
  have h3 : fn ≠ "!_" := by rcases h' with h | h | h | h | h | h <;> subst h <;> decide
  simp [h1, h2, h3, h']

theorem buildCondition_in (env : Env) (s : Schema) (target : Option Expr) (args : List Expr) :
    buildCondition env s (.call target "@in" args) = buildInCondition env s args := by
  rw [buildCondition]
  unfold buildCallCondition
  simp

theorem buildCondition_contains (env : Env) (s : Schema) (target : Option Expr)
    (args : List Expr) :
    buildCondition env s (.call target "contains" args) =
      buildContainsCondition s target args := by
  rw [buildCondition]
  unfold buildCallCondition
  simp

theorem Schema.knows_nil (s : Schema) : s.Knows [] := by
  intro name h; cases h

theorem Schema.knows_single (s : Schema) (name : String) (field : Filter.Field)
    (h : s.Field name = some field) : s.Knows [name] := by
  intro n hn
  simp at hn
  subst hn
  exact ⟨field, h⟩

theorem Schema.knows_append (s : Schema) (xs ys : List String)
    (hx : s.Knows xs) (hy : s.Knows ys) : s.Knows (xs ++ ys) := by
  intro n hn
  rcases List.mem_append.1 hn with h | h
  · exact hx n h
  · exact hy n h

theorem Schema.allowsContains_nil (s : Schema) : s.AllowsContains [] := by
  intro name h; cases h

theorem Schema.allowsContains_append (s : Schema) (xs ys : List String)
    (hx : s.AllowsContains xs) (hy : s.AllowsContains ys) : s.AllowsContains (xs ++ ys) := by
  intro n hn
  rcases List.mem_append.1 hn with h | h
  · exact hx n h
  · exact hy n h

theorem buildValueExpr_call (env : Env) (s : Schema) (t : Option Expr) (fn : String)
    (args : List Expr) :
    buildValueExpr env s (.call t fn args) =
      match evaluateNumeric env (.call t fn args) with
      | .error err => .error err
      | .ok (some value) => .ok (.LiteralValue (.int64 value))
      | .ok none =>
      match evaluateBoolExpr (.call t fn args) with
      | .error err => .error err
      | .ok (some boolVal) => .ok (.LiteralValue (.bool boolVal))
      | .ok none =>
        if fn = "size" then
          match args with
          | [a] =>
            match buildValueExpr env s a with
            | .error err => .error err
            | .ok arg => .ok (.FunctionValue "size" [arg])
          | _ => .error .sizeExpectsOne
        else if fn = "now" then .ok (.LiteralValue (.int64 env.timeNowUnix))
        else if fn = "_+_" ∨ fn = "_-_" ∨ fn = "_*_" then
          match evaluateNumeric env (.call t fn args) with
          | .error err => .error err
          | .ok (some value) => .ok (.LiteralValue (.int64 value))
          | .ok none => .error .unsupportedValue
        else .error .unsupportedValue := by
  match args with
  | [] => rw [buildValueExpr] <;> simp [getIdentName, getConstValue]
  | [a] => rw [buildValueExpr]; simp [getIdentName, getConstValue]
  | _ :: _ :: _ => rw [buildValueExpr] <;> simp [getIdentName, getConstValue]

theorem buildValueExpr_knows (env : Env) (s : Schema) (e : Expr) :
    ∀ v, buildValueExpr env s e = .ok v → s.Knows (ValueExpr.fieldNames v) := by
  generalize hn : sizeOf e = n
  induction n using Nat.strong_induction_on generalizing e with
  | _ n ih =>
    intro v h
    cases e with
    | ident name =>
      rw [buildValueExpr_ident] at h
      split at h
      · cases h
      · rename_i field hf
        cases h
        exact s.knows_single name field hf
    | const c =>
      cases c <;> simp [buildValueExpr, getIdentName, getConstValue, evaluateNumeric,
        evaluateBoolExpr] at h <;> subst h <;> exact s.knows_nil
    | call t fn args =>
      rw [buildValueExpr_call] at h
      split at h
      · cases h
      · cases h; exact s.knows_nil
      · split at h
        · cases h
        · cases h; exact s.knows_nil
        · split_ifs at h
          · split at h
            · rename_i a _ _
              split at h
              · cases h
              · rename_i arg harg
                cases h
                have hlt : sizeOf a < n := by
                  subst hn; simp; omega
                have := ih (sizeOf a) hlt a rfl arg harg
                simpa [ValueExpr.fieldNames, ValueExpr.fieldNamesList] using this
            · cases h
          · cases h; exact s.knows_nil
    | _ =>
      simp [buildValueExpr, getIdentName, getConstValue, evaluateNumeric, evaluateBoolExpr] at h

theorem buildValues_knows (env : Env) (s : Schema) (es : List Expr) :
    ∀ vs, buildValues env s es = .ok vs → s.Knows (ValueExpr.fieldNamesList vs) := by
  induction es with
  | nil =>
    intro vs h
    simp [buildValues] at h
    subst h
    exact s.knows_nil
  | cons e rest ih =>
    intro vs h
    rw [buildValues] at h
    split at h
    · cases h
    · rename_i value hvalue
      split at h
      · cases h
      · rename_i values hvalues
        cases h
        exact s.knows_append _ _ (buildValueExpr_knows env s e value hvalue)
          (ih values hvalues)

theorem buildComparisonCondition_knows (env : Env) (s : Schema) (fn : String)
    (args : List Expr) (c : Condition)
    (h : buildComparisonCondition env s fn args = .ok c) :
    s.Knows c.fieldNames ∧ s.AllowsContains c.containsFields := by
  unfold buildComparisonCondition at h
  split at h
  · rename_i a0 a1
    split at h
    · cases h
    · rename_i op _
      split at h
      · cases h
      · rename_i left hleft
        split at h
        · cases h
        · rename_i right hright
          have hc : s.Knows (Condition.ComparisonCondition left op right).fieldNames ∧
              s.AllowsContains (Condition.ComparisonCondition left op right).containsFields :=
            ⟨s.knows_append _ _ (buildValueExpr_knows env s a0 left hleft)
              (buildValueExpr_knows env s a1 right hright), s.allowsContains_nil⟩
          split at h
          · split at h
            · cases h
            · split at h
              · cases h
              · split at h
                · split_ifs at h
                  cases h; exact hc
                · cases h; exact hc
          · cases h; exact hc
  · cases h

theorem buildInCondition_knows (env : Env) (s : Schema)
    (args : List Expr) (c : Condition)
    (h : buildInCondition env s args = .ok c) :
    s.Knows c.fieldNames ∧ s.AllowsContains c.containsFields := by
  unfold buildInCondition at h
  split at h
  · rename_i a0 a1
    simp only at h
    split at h
    · rename_i result hfirst
      split at hfirst
      · cases hfirst
      · rename_i identName _
        split at hfirst
        · cases hfirst; cases h
        · rename_i field hfield
          split_ifs at hfirst
          · cases hfirst; cases h
          · split at hfirst
            · rename_i elements
              split at hfirst
              · cases hfirst; cases h
              · rename_i values hvalues
                cases hfirst; cases h
                exact ⟨s.knows_append _ _ (s.knows_single identName field hfield)
                  (buildValues_knows env s elements values hvalues), s.allowsContains_nil⟩
            · cases hfirst
    · split at h
      · cases h
      · rename_i identName _
        split at h
        · cases h
        · rename_i field hfield
          split at h
          · cases h
          · rename_i element helement
            cases h
            exact ⟨s.knows_append _ _ (buildValueExpr_knows env s a0 element helement)
              (s.knows_single identName field hfield), s.allowsContains_nil⟩
  · cases h

theorem buildContainsCondition_ok_iff (s : Schema) (target : Option Expr)
    (args : List Expr) (built : Condition) :
    buildContainsCondition s target args = .ok built ↔
      ∃ (name : String) (fieldDef : Field) (str : String),
        target = some (.ident name) ∧ s.Field name = some fieldDef ∧
        fieldDef.SupportsContains = true ∧ args = [.const (.string str)] ∧
        built = .ContainsCondition name str := by
  constructor
  · intro h
    unfold buildContainsCondition at h
    split at h
    · cases h
    · rename_i t
      cases t <;> simp only [getIdentName] at h <;> try cases h
      rename_i name
      cases hf : s.Field name with
      | none => simp [hf] at h
      | some fieldDef =>
        simp only [hf] at h
        cases hsc : fieldDef.SupportsContains with
        | false => simp [hsc] at h
        | true =>
          simp only [hsc] at h
          match args, h with
          | [a], h =>
            cases a <;> simp [getConstValue] at h
            rename_i c
            cases c <;> simp at h
            rename_i str
            exact ⟨name, fieldDef, str, rfl, hf, hsc, rfl, h.symm⟩
          | [], h => simp at h
          | _ :: _ :: _, h => simp at h
  · rintro ⟨name, fieldDef, str, rfl, hf, hsc, rfl, rfl⟩
    simp [buildContainsCondition, getIdentName, hf, hsc, getConstValue]

theorem buildContainsCondition_knows (s : Schema) (target : Option Expr)
    (args : List Expr) (c : Condition)
    (h : buildContainsCondition s target args = .ok c) :
    s.Knows c.fieldNames ∧ s.AllowsContains c.containsFields := by
  obtain ⟨name, fieldDef, str, _, hf, hsc, _, rfl⟩ :=
    (buildContainsCondition_ok_iff s target args c).1 h
  refine ⟨s.knows_single name fieldDef hf, ?_⟩
  intro n hn
  simp [Condition.containsFields] at hn
  subst hn
  exact ⟨fieldDef, hf, hsc⟩

theorem buildCondition_knows (env : Env) (s : Schema) (e : Expr) :
    ∀ c, buildCondition env s e = .ok c →
      s.Knows c.fieldNames ∧ s.AllowsContains c.containsFields := by
  generalize hn : sizeOf e = n
  induction n using Nat.strong_induction_on generalizing e with
  | _ n ih =>
    intro c h
    cases e with
    | call target fn args =>
      rw [buildCondition] at h
      unfold buildCallCondition at h
      have hsub : ∀ a ∈ args, ∀ c, buildCondition env s a = .ok c →
          s.Knows c.fieldNames ∧ s.AllowsContains c.containsFields := by
        intro a ha c hc
        have hlt : sizeOf a < n := by
          subst hn
          have := List.sizeOf_lt_of_mem ha
          simp; omega
        exact ih (sizeOf a) hlt a rfl c hc
      split_ifs at h
      · split at h
        · rename_i a0 a1
          split at h
          · cases h
          · rename_i left hleft
            split at h
            · cases h
            · rename_i right hright
              cases h
              have hl := hsub a0 (by simp) left hleft
              have hr := hsub a1 (by simp) right hright
              exact ⟨s.knows_append _ _ hl.1 hr.1, s.allowsContains_append _ _ hl.2 hr.2⟩
        · cases h
      · split at h
        · rename_i a0 a1
          split at h
          · cases h
          · rename_i left hleft
            split at h
            · cases h
            · rename_i right hright
              cases h
              have hl := hsub a0 (by simp) left hleft
              have hr := hsub a1 (by simp) right hright
              exact ⟨s.knows_append _ _ hl.1 hr.1, s.allowsContains_append _ _ hl.2 hr.2⟩
        · cases h
      · split at h
        · rename_i a
          split at h
          · cases h
          · rename_i child hchild
            cases h
            exact hsub a (by simp) child hchild
        · cases h
      · exact buildComparisonCondition_knows env s fn args c h
      · exact buildInCondition_knows env s args c h
      · exact buildContainsCondition_knows s target args c h
      · split at h
        · cases h
        · cases h; exact ⟨s.knows_nil, s.allowsContains_nil⟩
        · cases h
    | const k =>
      cases k <;> simp [buildCondition, getConstValue] at h <;>
        subst h <;> exact ⟨s.knows_nil, s.allowsContains_nil⟩
    | ident name =>
      simp only [buildCondition] at h
      split at h
      · cases h
      · rename_i field hfield
        split_ifs at h
        cases h
        exact ⟨s.knows_single name field hfield, s.allowsContains_nil⟩
    | _ => simp [buildCondition] at h

theorem buildValues_consts (env : Env) (s : Schema) (cs : List Constant) (vs : List Value)
    (h : List.Forall₂ (fun c v => getConstValue (.const c) = .ok v) cs vs) :
    buildValues env s (cs.map .const) = .ok (vs.map .LiteralValue) := by
  induction h with
  | nil => simp [buildValues]
  | cons hcv _ ih =>
    simp [buildValues, buildValueExpr_const env s _ _ hcv, ih]

theorem evaluateNumeric_const (env : Env) (c : Constant) :
    evaluateNumeric env (.const c) =
      match getConstValue (.const c) with
      | .ok (.int64 v) => .ok (some v)
      | .ok (.float64 v) => .ok (some (env.f64ToInt64 v))
      | _ => .ok none := by
  cases c <;> simp [evaluateNumeric, getConstValue]

theorem evaluateNumeric_call (env : Env) (t : Option Expr) (fn : String) (args : List Expr) :
    evaluateNumeric env (.call t fn args) =
      if fn = "now" then .ok (some env.timeNowUnix)
      else if fn = "_+_" ∨ fn = "_-_" ∨ fn = "_*_" then
        match args with
        | [a, b] =>
          match evaluateNumeric env a with
          | .error err => .error err
          | .ok none => .ok none
          | .ok (some left) =>
            match evaluateNumeric env b with
            | .error err => .error err
            | .ok none => .ok none
            | .ok (some right) =>
              if fn = "_+_" then .ok (some (wrapInt64 (left + right)))
              else if fn = "_-_" then .ok (some (wrapInt64 (left - right)))
              else if fn = "_*_" then .ok (some (wrapInt64 (left * right)))
              else .error (.unsupportedArithmetic fn)
        | _ => .error .arithmeticExpectsTwo
      else .ok none := by
  match args with
  | [] => rw [evaluateNumeric] <;> simp [getConstValue]
  | [_] => rw [evaluateNumeric] <;> simp [getConstValue]
  | [_, _] => rw [evaluateNumeric]; simp [getConstValue]
  | _ :: _ :: _ :: _ => rw [evaluateNumeric] <;> simp [getConstValue]

theorem evaluateBoolExpr_call (t : Option Expr) (fn : String) (args : List Expr) :
    evaluateBoolExpr (.call t fn args) =
      if fn = "!_" then
        match args with
        | [a] =>
          match evaluateBoolExpr a with
          | .error err => .error err
          | .ok none => .ok none
          | .ok (some val) => .ok (some (!val))
        | _ => .error .boolNotExpectsOne
      else .ok none := by
  match args with
  | [] => rw [evaluateBoolExpr] <;> simp [getConstValue]
  | [_] => rw [evaluateBoolExpr]; simp [getConstValue]
  | _ :: _ :: _ => rw [evaluateBoolExpr] <;> simp [getConstValue]

theorem buildCondition_call (env : Env) (s : Schema) (t : Option Expr) (fn : String)
    (args : List Expr) :
    buildCondition env s (.call t fn args) = buildCallCondition env s t fn args := by
  rw [buildCondition]

theorem wrapInt64_of_inRange (n : Int) (hlo : -(2 ^ 63) ≤ n) (hhi : n < 2 ^ 63) :
    wrapInt64 n = n := by
  unfold wrapInt64
  omega
theorem wrapInt64_modEq (n : Int) : wrapInt64 n ≡ n [ZMOD 2 ^ 64] := by
  unfold wrapInt64 Int.ModEq
  omega

theorem wrapInt64_inRange (n : Int) : -(2 ^ 63) ≤ wrapInt64 n ∧ wrapInt64 n < 2 ^ 63 := by
  unfold wrapInt64
  omega

theorem wrapInt64_congr {a b : Int} (h : a ≡ b [ZMOD 2 ^ 64]) : wrapInt64 a = wrapInt64 b := by
  unfold wrapInt64
  have h' : (a + 2 ^ 63) % 2 ^ 64 = (b + 2 ^ 63) % 2 ^ 64 := Int.ModEq.add_right _ h
  rw [h']

theorem ArithOp.apply_modEq (op : ArithOp) {a a' b b' : Int}
    (ha : a ≡ a' [ZMOD 2 ^ 64]) (hb : b ≡ b' [ZMOD 2 ^ 64]) :
    op.apply a b ≡ op.apply a' b' [ZMOD 2 ^ 64] := by
  cases op
  · exact Int.ModEq.add ha hb
  · exact Int.ModEq.sub ha hb
  · exact Int.ModEq.mul ha hb

theorem ArithTree.value64_modEq (t : ArithTree) : t.value64 ≡ t.exactValue [ZMOD 2 ^ 64] := by
  induction t with
  | lit n => exact Int.ModEq.refl _
  | node op l r ihl ihr =>
    exact (wrapInt64_modEq _).trans (ArithOp.apply_modEq op ihl ihr)

theorem ArithTree.value64_eq_wrap (t : ArithTree) (h : t.literalsInRange = true) :
    t.value64 = wrapInt64 t.exactValue := by
  cases t with
  | lit n =>
    simp [ArithTree.literalsInRange] at h
    simp only [ArithTree.value64, ArithTree.exactValue]
    exact (wrapInt64_of_inRange n h.1 h.2).symm
  | node op l r =>
    simp only [ArithTree.value64, ArithTree.exactValue]
    exact wrapInt64_congr (ArithOp.apply_modEq op l.value64_modEq r.value64_modEq)

theorem evaluateNumeric_arithTree (env : Env) (t : ArithTree) :
    evaluateNumeric env t.toExpr = .ok (some t.value64) := by
  induction t with
  | lit n => simp [ArithTree.toExpr, evaluateNumeric_const, getConstValue, ArithTree.value64]
  | node op l r ihl ihr =>
    rw [ArithTree.toExpr, evaluateNumeric_call]
    cases op <;> simp [ArithOp.symbol, ihl, ihr, ArithTree.value64, ArithOp.apply]


theorem buildValueExpr_sizeNodes (env : Env) (s : Schema) (e : Expr) :
    ∀ v, buildValueExpr env s e = .ok v →
      ∀ node ∈ ValueExpr.functionNodes v, IsSizeNode env s node := by
  generalize hn : sizeOf e = n
  induction n using Nat.strong_induction_on generalizing e with
  | _ n ih =>
    intro v h
    cases e with
    | ident name =>
      rw [buildValueExpr_ident] at h
      split at h
      · cases h
      · cases h
        simp [ValueExpr.functionNodes]
    | const c =>
      cases c <;> simp [buildValueExpr, getIdentName, getConstValue, evaluateNumeric,
        evaluateBoolExpr] at h <;> subst h <;> simp [ValueExpr.functionNodes]
    | call t fn args =>
      rw [buildValueExpr_call] at h
      split at h
      · cases h
      · cases h; simp [ValueExpr.functionNodes]
      · split at h
        · cases h
        · cases h; simp [ValueExpr.functionNodes]
        · split_ifs at h
          · split at h
            · rename_i a _ _
              split at h
              · cases h
              · rename_i arg harg
                cases h
                have hlt : sizeOf a < n := by
                  subst hn; simp; omega
                have hsub := ih (sizeOf a) hlt a rfl arg harg
                intro node hnode
                simp only [ValueExpr.functionNodes, ValueExpr.functionNodesList,
                  List.append_nil, List.mem_cons] at hnode
                rcases hnode with rfl | hnode
                · exact ⟨rfl, arg, a, rfl, harg⟩
                · exact hsub node hnode
            · cases h
          · cases h; simp [ValueExpr.functionNodes]
    | _ =>
      simp [buildValueExpr, getIdentName, getConstValue, evaluateNumeric, evaluateBoolExpr] at h

theorem buildValues_sizeNodes (env : Env) (s : Schema) (es : List Expr) :
    ∀ vs, buildValues env s es = .ok vs →
      ∀ node ∈ ValueExpr.functionNodesList vs, IsSizeNode env s node := by
  induction es with
  | nil =>
    intro vs h
    simp [buildValues] at h
    subst h
    simp [ValueExpr.functionNodesList]
  | cons e rest ih =>
    intro vs h
    rw [buildValues] at h
    split at h
    · cases h
    · rename_i value hvalue
      split at h
      · cases h
      · rename_i values hvalues
        cases h
        intro node hnode
        simp only [ValueExpr.functionNodesList, List.mem_append] at hnode
        rcases hnode with hnode | hnode
        · exact buildValueExpr_sizeNodes env s e value hvalue node hnode
        · exact ih values hvalues node hnode

theorem buildComparisonCondition_sizeNodes (env : Env) (s : Schema) (fn : String)
    (args : List Expr) (c : Condition)
    (h : buildComparisonCondition env s fn args = .ok c) :
    ∀ node ∈ c.functionNodes, IsSizeNode env s node := by
  unfold buildComparisonCondition at h
  split at h
  · rename_i a0 a1
    split at h
    · cases h
    · rename_i op _
      split at h
      · cases h
      · rename_i left hleft
        split at h
        · cases h
        · rename_i right hright
          have hc : ∀ node ∈ (Condition.ComparisonCondition left op right).functionNodes,
              IsSizeNode env s node := by
            intro node hnode
            simp only [Condition.functionNodes, List.mem_append] at hnode
            rcases hnode with hnode | hnode
            · exact buildValueExpr_sizeNodes env s a0 left hleft node hnode
            · exact buildValueExpr_sizeNodes env s a1 right hright node hnode
          split at h
          · split at h
            · cases h
            · split at h
              · cases h
              · split at h
                · split_ifs at h
                  cases h; exact hc
                · cases h; exact hc
          · cases h; exact hc
  · cases h

theorem buildInCondition_sizeNodes (env : Env) (s : Schema)
    (args : List Expr) (c : Condition)
    (h : buildInCondition env s args = .ok c) :
    ∀ node ∈ c.functionNodes, IsSizeNode env s node := by
  unfold buildInCondition at h
  split at h
  · rename_i a0 a1
    simp only at h
    split at h
    · rename_i result hfirst
      split at hfirst
      · cases hfirst
      · rename_i identName _
        split at hfirst
        · cases hfirst; cases h
        · rename_i field hfield
          split_ifs at hfirst
          · cases hfirst; cases h
          · split at hfirst
            · rename_i elements
              split at hfirst
              · cases hfirst; cases h
              · rename_i values hvalues
                cases hfirst; cases h
                intro node hnode
                simp only [Condition.functionNodes, ValueExpr.functionNodes,
                  List.nil_append] at hnode
                exact buildValues_sizeNodes env s elements values hvalues node hnode
            · cases hfirst
    · split at h
      · cases h
      · rename_i identName _
        split at h
        · cases h
        · split at h
          · cases h
          · rename_i element helement
            cases h
            intro node hnode
            simp only [Condition.functionNodes] at hnode
            exact buildValueExpr_sizeNodes env s a0 element helement node hnode
  · cases h

theorem buildCondition_sizeNodes (env : Env) (s : Schema) (e : Expr) :
    ∀ c, buildCondition env s e = .ok c →
      ∀ node ∈ c.functionNodes, IsSizeNode env s node := by
  generalize hn : sizeOf e = n
  induction n using Nat.strong_induction_on generalizing e with
  | _ n ih =>
    intro c h
    cases e with
    | call target fn args =>
      rw [buildCondition] at h
      unfold buildCallCondition at h
      have hsub : ∀ a ∈ args, ∀ c, buildCondition env s a = .ok c →
          ∀ node ∈ c.functionNodes, IsSizeNode env s node := by
        intro a ha c hc
        have hlt : sizeOf a < n := by
          subst hn
          have := List.sizeOf_lt_of_mem ha
          simp; omega
        exact ih (sizeOf a) hlt a rfl c hc
      split_ifs at h
      · split at h
        · rename_i a0 a1
          split at h
          · cases h
          · rename_i left hleft
            split at h
            · cases h
            · rename_i right hright
              cases h
              intro node hnode
              simp only [Condition.functionNodes, List.mem_append] at hnode
              rcases hnode with hnode | hnode
              · exact hsub a0 (by simp) left hleft node hnode
              · exact hsub a1 (by simp) right hright node hnode
        · cases h
      · split at h
        · rename_i a0 a1
          split at h
          · cases h
          · rename_i left hleft
            split at h
            · cases h
            · rename_i right hright
              cases h
              intro node hnode
              simp only [Condition.functionNodes, List.mem_append] at hnode
              rcases hnode with hnode | hnode
              · exact hsub a0 (by simp) left hleft node hnode
              · exact hsub a1 (by simp) right hright node hnode
        · cases h
      · split at h
        · rename_i a
          split at h
          · cases h
          · rename_i child hchild
            cases h
            exact hsub a (by simp) child hchild
        · cases h
      · exact buildComparisonCondition_sizeNodes env s fn args c h
      · exact buildInCondition_sizeNodes env s args c h
      · obtain ⟨name, fieldDef, str, _, _, _, _, rfl⟩ :=
          (buildContainsCondition_ok_iff s target args c).1 h
        simp [Condition.functionNodes]
      · split at h
        · cases h
        · cases h; simp [Condition.functionNodes]
        · cases h
    | const k =>
      cases k <;> simp [buildCondition, getConstValue] at h <;>
        subst h <;> simp [Condition.functionNodes]
    | ident name =>
      simp only [buildCondition] at h
      split at h
      · cases h
      · split_ifs at h
        cases h
        simp [Condition.functionNodes]
    | _ => simp [buildCondition] at h

theorem buildValueExpr_now (env : Env) (s : Schema) (t : Option Expr) (args : List Expr) :
    buildValueExpr env s (.call t "now" args) =
      .ok (.LiteralValue (.int64 env.timeNowUnix)) := by
  rw [buildValueExpr_call, evaluateNumeric_call]
  simp

theorem evaluateBoolExpr_not (t : Option Expr) (e : Expr) :
    evaluateBoolExpr (.call t "!_" [e]) =
      match evaluateBoolExpr e with
      | .error err => .error err
      | .ok none => .ok none
      | .ok (some val) => .ok (some (!val)) := by
  rw [evaluateBoolExpr_call]
  simp

theorem evaluateBoolExpr_negations_bool (b : Bool) (n : Nat) :
    evaluateBoolExpr (negations n (.const (.bool b))) =
      .ok (some (b ^^ decide (n % 2 = 1))) := by
  induction n with
  | zero => simp [negations, evaluateBoolExpr, getConstValue]
  | succ k ih =>
    rw [negations, evaluateBoolExpr_not, ih]
    have h : decide ((k + 1) % 2 = 1) = !decide (k % 2 = 1) := by
      rcases Nat.mod_two_eq_zero_or_one k with h | h <;> simp [Nat.add_mod, h]
    rw [h]
    cases b <;> cases decide (k % 2 = 1) <;> rfl

theorem evaluateBoolExpr_negations_none (n : Nat) (x : Expr)
    (h : evaluateBoolExpr x = .ok none) :
    evaluateBoolExpr (negations n x) = .ok none := by
  induction n with
  | zero => exact h
  | succ k ih => rw [negations, evaluateBoolExpr_not, ih]

theorem evaluateNumeric_ident (env : Env) (name : String) :
    evaluateNumeric env (.ident name) = .ok none := by
  simp [evaluateNumeric, getConstValue]

/-! ## The claims -/

/-- C1: if `buildCondition` succeeds with condition `c`, every field name
occurring anywhere in `c` is found by `schema.Field`, and the field of every
`Contains` node of `c` is found with `SupportsContains` set. -/
theorem built_condition_fields_validated (env : Env) (s : Schema) (e : Expr) (c : Condition)
    (h : buildCondition env s e = .ok c) :
    (∀ name ∈ c.fieldNames, ∃ field, s.Field name = some field) ∧
    (∀ name ∈ c.containsFields,
      ∃ field, s.Field name = some field ∧ field.SupportsContains = true) :=
  buildCondition_knows env s e c h

/-- C1 at a concrete input: `id == 1 && content.contains("x")`. -/
theorem built_condition_fields_validated_witness :
    buildCondition exampleEnv exampleSchema
        (.call none "_&&_"
          [.call none "_==_" [.ident "id", .const (.int64 1)],
           .call (some (.ident "content")) "contains" [.const (.string "x")]]) =
      .ok (.LogicalCondition .LogicalAnd
        (.ComparisonCondition (.FieldRef "id") .CompareEq (.LiteralValue (.int64 1)))
        (.ContainsCondition "content" "x")) ∧
    (∀ name ∈ ["id", "content"], ∃ field, exampleSchema.Field name = some field) ∧
    (∀ name ∈ ["content"],
      ∃ field, exampleSchema.Field name = some field ∧ field.SupportsContains = true) :=
  ⟨rfl,
    built_condition_fields_validated exampleEnv exampleSchema
      (.call none "_&&_"
        [.call none "_==_" [.ident "id", .const (.int64 1)],
         .call (some (.ident "content")) "contains" [.const (.string "x")]])
      (.LogicalCondition .LogicalAnd
        (.ComparisonCondition (.FieldRef "id") .CompareEq (.LiteralValue (.int64 1)))
        (.ContainsCondition "content" "x")) rfl⟩

/-- C2: for a Normal field whose `AllowedComparisonOps` is a set `S`, a
comparison of the field (left operand) with a literal builds
`Comparison(FieldRef f, op, Literal L)` when `op` is in `S` and fails with the
operator-not-allowed error when it is not (whether or not `S` has an element).
A literal is a constant expression that `getConstValue` accepts, `v` being
its value. -/
theorem comparison_respects_allowed_ops (env : Env) (s : Schema) (target : Option Expr)
    (name : String) (fieldDef : Field) (S : List ComparisonOperator)
    (fn : String) (op : ComparisonOperator) (c : Constant) (v : Value)
    (hfield : s.Field name = some fieldDef)
    (hkind : fieldDef.Kind = .FieldKindNormal)
    (hops : fieldDef.AllowedComparisonOps = some S)
    (hop : toComparisonOperator fn = .ok op)
    (hlit : getConstValue (.const c) = .ok v) :
    (op ∈ S → buildCondition env s (.call target fn [.ident name, .const c]) =
        .ok (.ComparisonCondition (.FieldRef name) op (.LiteralValue v))) ∧
    (op ∉ S → buildCondition env s (.call target fn [.ident name, .const c]) =
        .error (.operatorNotAllowed op name)) := by
  rw [buildCondition_comparison env s target hop]
  constructor <;> intro hmem <;>
    simp [buildComparisonCondition, hop, buildValueExpr_ident, hfield,
      buildValueExpr_const env s c v hlit, hkind, hops, hmem]

theorem comparison_respects_allowed_ops_witness :
    (exampleSchema.Field "id" = some fieldId ∧
      fieldId.Kind = .FieldKindNormal ∧
      fieldId.AllowedComparisonOps = some [.CompareEq, .CompareNeq] ∧
      toComparisonOperator "_>_" = .ok .CompareGt ∧
      toComparisonOperator "_==_" = .ok .CompareEq ∧
      getConstValue (.const (.int64 1)) = .ok (.int64 1)) ∧
    buildCondition exampleEnv exampleSchema
        (.call none "_>_" [.ident "id", .const (.int64 1)]) =
      .error (.operatorNotAllowed .CompareGt "id") ∧
    buildCondition exampleEnv exampleSchema
        (.call none "_==_" [.ident "id", .const (.int64 1)]) =
      .ok (.ComparisonCondition (.FieldRef "id") .CompareEq (.LiteralValue (.int64 1))) :=
  ⟨⟨rfl, rfl, rfl, rfl, rfl, rfl⟩,
    (comparison_respects_allowed_ops exampleEnv exampleSchema none "id" fieldId
      [.CompareEq, .CompareNeq] "_>_" .CompareGt (.int64 1) (.int64 1)
      rfl rfl rfl rfl rfl).2 (by decide),
    (comparison_respects_allowed_ops exampleEnv exampleSchema none "id" fieldId
      [.CompareEq, .CompareNeq] "_==_" .CompareEq (.int64 1) (.int64 1)
      rfl rfl rfl rfl rfl).1 (by decide)⟩

/-- C3 (counterexample): the field `tag` of `exampleSchema` is a Normal field
whose operator map is allocated but empty, and `tag == "x"` is rejected with
the operator-not-allowed error instead of being built. -/
theorem empty_allowed_ops_rejects :
    (exampleSchema.Field "tag" = some fieldTag ∧
      fieldTag.Kind = .FieldKindNormal ∧
      fieldTag.AllowedComparisonOps = some []) ∧
    buildCondition exampleEnv exampleSchema
        (.call none "_==_" [.ident "tag", .const (.string "x")]) =
      .error (.operatorNotAllowed .CompareEq "tag") :=
  ⟨⟨rfl, rfl, rfl⟩, rfl⟩

/-- C3 (amended): a Normal field whose `AllowedComparisonOps` is nil permits
all operators: comparing it with any literal builds
`Comparison(FieldRef f, op, Literal L)` for each of the six operators. -/
theorem nil_allowed_ops_permits_all (env : Env) (s : Schema) (target : Option Expr)
    (name : String) (fieldDef : Field)
    (fn : String) (op : ComparisonOperator) (c : Constant) (v : Value)
    (hfield : s.Field name = some fieldDef)
    (hkind : fieldDef.Kind = .FieldKindNormal)
    (hops : fieldDef.AllowedComparisonOps = none)
    (hop : toComparisonOperator fn = .ok op)
    (hlit : getConstValue (.const c) = .ok v) :
    buildCondition env s (.call target fn [.ident name, .const c]) =
      .ok (.ComparisonCondition (.FieldRef name) op (.LiteralValue v)) := by
  rw [buildCondition_comparison env s target hop]
  simp [buildComparisonCondition, hop, buildValueExpr_ident, hfield,
    buildValueExpr_const env s c v hlit, hkind, hops]

theorem nil_allowed_ops_permits_all_witness :
    (exampleSchema.Field "content" = some fieldContent ∧
      fieldContent.Kind = .FieldKindNormal ∧
      fieldContent.AllowedComparisonOps = none ∧
      toComparisonOperator "_<_" = .ok .CompareLt ∧
      getConstValue (.const (.string "m")) = .ok (.string "m")) ∧
    buildCondition exampleEnv exampleSchema
        (.call none "_<_" [.ident "content", .const (.string "m")]) =
      .ok (.ComparisonCondition (.FieldRef "content") .CompareLt
        (.LiteralValue (.string "m"))) :=
  ⟨⟨rfl, rfl, rfl, rfl, rfl⟩,
    nil_allowed_ops_permits_all exampleEnv exampleSchema none "content" fieldContent
      "_<_" .CompareLt (.string "m") (.string "m") rfl rfl rfl rfl rfl⟩

/-- C4: comparing an identifier the schema does not contain with any constant
fails, for each of the six operators, with the unknown-identifier error that
carries the identifier. -/
theorem unknown_identifier_comparison_fails (env : Env) (s : Schema)
    (target : Option Expr) (name : String)
    (fn : String) (op : ComparisonOperator) (c : Constant)
    (hfield : s.Field name = none)
    (hop : toComparisonOperator fn = .ok op) :
    buildCondition env s (.call target fn [.ident name, .const c]) =
      .error (.unknownIdentifier name) := by
  rw [buildCondition_comparison env s target hop]
  simp [buildComparisonCondition, hop, buildValueExpr_ident, hfield]

theorem unknown_identifier_comparison_fails_witness :
    (exampleSchema.Field "bogus" = none ∧
      toComparisonOperator "_==_" = .ok .CompareEq) ∧
    buildCondition exampleEnv exampleSchema
        (.call none "_==_" [.ident "bogus", .const (.int64 1)]) =
      .error (.unknownIdentifier "bogus") :=
  ⟨⟨rfl, rfl⟩,
    unknown_identifier_comparison_fails exampleEnv exampleSchema none "bogus"
      "_==_" .CompareEq (.int64 1) rfl rfl⟩

/-- C5: a `contains` call builds exactly when its target is an identifier
naming a schema field with `SupportsContains`, it has exactly one argument and
that argument is a string literal; the result is then
`Contains(targetName, thatString)`. In particular a call on a field without
`SupportsContains` fails at build time. -/
theorem contains_builds_iff (env : Env) (s : Schema) (target : Option Expr)
    (args : List Expr) :
    (∀ built : Condition,
      buildCondition env s (.call target "contains" args) = .ok built ↔
        ∃ (name : String) (fieldDef : Field) (str : String),
          target = some (.ident name) ∧ s.Field name = some fieldDef ∧
          fieldDef.SupportsContains = true ∧ args = [.const (.string str)] ∧
          built = .ContainsCondition name str) ∧
    (∀ (x : String) (fieldDef : Field), target = some (.ident x) →
      s.Field x = some fieldDef → fieldDef.SupportsContains = false →
      buildCondition env s (.call target "contains" args) =
        .error (.containsNoContains x)) := by
  rw [buildCondition_contains]
  refine ⟨fun built => buildContainsCondition_ok_iff s target args built, ?_⟩
  rintro x fieldDef rfl hf hsc
  simp [buildContainsCondition, getIdentName, hf, hsc]

theorem contains_builds_iff_witness :
    (exampleSchema.Field "id" = some fieldId ∧ fieldId.SupportsContains = false) ∧
    buildCondition exampleEnv exampleSchema
        (.call (some (.ident "id")) "contains" [.const (.string "needle")]) =
      .error (.containsNoContains "id") :=
  ⟨⟨rfl, rfl⟩,
    (contains_builds_iff exampleEnv exampleSchema (some (.ident "id"))
      [.const (.string "needle")]).2 "id" fieldId rfl rfl rfl⟩

/-- C6 (counterexample): `dangling` is a VirtualAlias field of `exampleSchema`
whose `ResolveAlias` lookup fails, and `1 == dangling`, which uses it as the
right operand, builds a `Comparison`. -/
theorem unresolved_alias_right_operand_builds :
    (exampleSchema.Field "dangling" = some fieldDangling ∧
      fieldDangling.Kind = .FieldKindVirtualAlias ∧
      exampleSchema.ResolveAlias "dangling" = none) ∧
    buildCondition exampleEnv exampleSchema
        (.call none "_==_" [.const (.int64 1), .ident "dangling"]) =
      .ok (.ComparisonCondition (.LiteralValue (.int64 1)) .CompareEq
        (.FieldRef "dangling")) :=
  ⟨⟨rfl, rfl, rfl⟩, rfl⟩

/-- C6 (amended): for a VirtualAlias field `a` whose `ResolveAlias` lookup
fails, every comparison call whose left operand is `a` and every `@in` call
whose left operand is `a` fails to build; with two arguments the error is the
invalid-alias error (for a comparison, once the right operand has built). -/
theorem unresolved_alias_left_operand_fails (env : Env) (s : Schema)
    (target : Option Expr) (a : String) (fieldDef : Field)
    (fn : String) (op : ComparisonOperator) (rest : List Expr)
    (hfield : s.Field a = some fieldDef)
    (hkind : fieldDef.Kind = .FieldKindVirtualAlias)
    (hresolve : s.ResolveAlias a = none)
    (hop : toComparisonOperator fn = .ok op) :
    (∃ err, buildCondition env s (.call target fn (.ident a :: rest)) = .error err) ∧
    (∃ err, buildCondition env s (.call target "@in" (.ident a :: rest)) = .error err) ∧
    (∀ (r : Expr) (v : ValueExpr), buildValueExpr env s r = .ok v →
      buildCondition env s (.call target fn [.ident a, r]) = .error (.invalidAlias a)) ∧
    (∀ r : Expr,
      buildCondition env s (.call target "@in" [.ident a, r]) = .error (.invalidAlias a)) := by
  have hcmp : ∀ (r : Expr) (v : ValueExpr), buildValueExpr env s r = .ok v →
      buildComparisonCondition env s fn [.ident a, r] = .error (.invalidAlias a) := by
    intro r v hr
    simp [buildComparisonCondition, hop, buildValueExpr_ident, hfield, hr, hkind, hresolve]
  have hin : ∀ r : Expr, buildInCondition env s [.ident a, r] = .error (.invalidAlias a) := by
    intro r
    simp [buildInCondition, getIdentName, hfield, hkind, hresolve]
  simp only [buildCondition_comparison env s target hop, buildCondition_in]
  refine ⟨?_, ?_, hcmp, hin⟩
  · match rest with
    | [] => exact ⟨_, by simp [buildComparisonCondition]; rfl⟩
    | [r] =>
      cases hr : buildValueExpr env s r with
      | error err =>
        exact ⟨err, by
          simp [buildComparisonCondition, hop, buildValueExpr_ident, hfield, hr]⟩
      | ok v => exact ⟨_, hcmp r v hr⟩
    | _ :: _ :: _ => exact ⟨_, by simp [buildComparisonCondition]; rfl⟩
  · match rest with
    | [] => exact ⟨_, by simp [buildInCondition]; rfl⟩
    | [r] => exact ⟨_, hin r⟩
    | _ :: _ :: _ => exact ⟨_, by simp [buildInCondition]; rfl⟩

theorem unresolved_alias_left_operand_fails_witness :
    (exampleSchema.Field "dangling" = some fieldDangling ∧
      fieldDangling.Kind = .FieldKindVirtualAlias ∧
      exampleSchema.ResolveAlias "dangling" = none ∧
      toComparisonOperator "_==_" = .ok .CompareEq) ∧
    buildCondition exampleEnv exampleSchema
        (.call none "@in" [.ident "dangling", .list [.const (.int64 1)]]) =
      .error (.invalidAlias "dangling") :=
  ⟨⟨rfl, rfl, rfl, rfl⟩,
    (unresolved_alias_left_operand_fails exampleEnv exampleSchema none "dangling"
      fieldDangling "_==_" .CompareEq [] rfl rfl rfl rfl).2.2.2 _⟩

/-- C7: for a Normal schema field `a` and a list literal whose elements are
literal constants with values `v1, ..., vn` (n >= 0), `a in [e1, ..., en]`
builds `In(FieldRef a, [Literal v1, ..., Literal vn])`, the values in the
order of the list and as many as its elements. -/
theorem in_list_of_literals (env : Env) (s : Schema) (target : Option Expr)
    (a : String) (fieldDef : Field) (cs : List Constant) (vs : List Value)
    (hfield : s.Field a = some fieldDef)
    (hkind : fieldDef.Kind = .FieldKindNormal)
    (hlits : List.Forall₂ (fun c v => getConstValue (.const c) = .ok v) cs vs) :
    buildCondition env s (.call target "@in" [.ident a, .list (cs.map .const)]) =
      .ok (.InCondition (.FieldRef a) (vs.map .LiteralValue)) ∧
    (vs.map ValueExpr.LiteralValue).length = cs.length := by
  constructor
  · rw [buildCondition_in]
    simp [buildInCondition, getIdentName, hfield, hkind, buildValues_consts env s cs vs hlits]
  · simp [hlits.length_eq]

theorem in_list_of_literals_witness :
    (exampleSchema.Field "id" = some fieldId ∧
      fieldId.Kind = .FieldKindNormal ∧
      List.Forall₂ (fun c v => getConstValue (.const c) = .ok v)
        [Constant.int64 1, Constant.int64 2, Constant.int64 3]
        [Value.int64 1, Value.int64 2, Value.int64 3]) ∧
    buildCondition exampleEnv exampleSchema
        (.call none "@in" [.ident "id",
          .list [.const (.int64 1), .const (.int64 2), .const (.int64 3)]]) =
      .ok (.InCondition (.FieldRef "id")
        [.LiteralValue (.int64 1), .LiteralValue (.int64 2), .LiteralValue (.int64 3)]) :=
  have hl : List.Forall₂ (fun c v => getConstValue (.const c) = .ok v)
      [Constant.int64 1, Constant.int64 2, Constant.int64 3]
      [Value.int64 1, Value.int64 2, Value.int64 3] :=
    .cons rfl (.cons rfl (.cons rfl .nil))
  ⟨⟨rfl, rfl, hl⟩,
    (in_list_of_literals exampleEnv exampleSchema none "id" fieldId _ _ rfl rfl hl).1⟩

/-- C8: an `@in` call is accepted only in its two forms. It fails when the
argument count is not two, and when the right operand is not an identifier
unless the left operand is an identifier and the right a list literal. When
the right operand is a schema identifier `f` and the left operand `v` is not
an identifier, the result is `ElementIn(buildValueExpr(v), f)`: the build
fails as `buildValueExpr(v)` does and otherwise wraps its value. -/
theorem in_accepts_two_forms (env : Env) (s : Schema) (target : Option Expr)
    (args : List Expr) :
    (args.length ≠ 2 →
      buildCondition env s (.call target "@in" args) = .error .inExpectsTwo) ∧
    (∀ l r : Expr, args = [l, r] → (∀ n, r ≠ .ident n) →
      ¬ ((∃ n, l = .ident n) ∧ (∃ es, r = .list es)) →
      ∃ err, buildCondition env s (.call target "@in" args) = .error err) ∧
    (∀ (v : Expr) (f : String) (fieldDef : Field), args = [v, .ident f] →
      s.Field f = some fieldDef → (∀ n, v ≠ .ident n) →
      buildCondition env s (.call target "@in" args) =
        (buildValueExpr env s v).map (fun element => .ElementInCondition element f)) := by
  rw [buildCondition_in]
  refine ⟨?_, ?_, ?_⟩
  · intro hlen
    match args, hlen with
    | [], _ => simp [buildInCondition]
    | [_], _ => simp [buildInCondition]
    | [_, _], h => simp at h
    | _ :: _ :: _ :: _, _ => simp [buildInCondition]
  · rintro l r rfl hr hform
    have hrn : getIdentName r = .error .notAnIdentifier := by
      cases r <;> simp [getIdentName] at hr ⊢
    cases l with
    | ident n =>
      have hrl : ∀ es, r ≠ .list es := fun es h => hform ⟨⟨n, rfl⟩, ⟨es, h⟩⟩
      cases hf : s.Field n with
      | none => exact ⟨.unknownIdentifier n, by simp [buildInCondition, getIdentName, hf]⟩
      | some fieldDef =>
        by_cases halias : fieldDef.Kind = .FieldKindVirtualAlias ∧ s.ResolveAlias n = none
        · exact ⟨.invalidAlias n, by simp [buildInCondition, getIdentName, hf, halias]⟩
        · refine ⟨.invalidIn, ?_⟩
          cases r <;> simp [getIdentName] at hrn hrl ⊢ <;>
            simp [buildInCondition, getIdentName, hf, halias]
    | _ => exact ⟨.invalidIn, by simp [buildInCondition, getIdentName, hrn]⟩
  · rintro v f fieldDef rfl hf hv
    have hvn : getIdentName v = .error .notAnIdentifier := by
      cases v <;> simp [getIdentName] at hv ⊢
    cases hb : buildValueExpr env s v <;>
      simp [buildInCondition, getIdentName, hvn, hf, hb, Except.map]

theorem in_accepts_two_forms_witness :
    (exampleSchema.Field "content" = some fieldContent ∧
      ∀ n, Expr.const (.string "x") ≠ .ident n) ∧
    buildCondition exampleEnv exampleSchema
        (.call none "@in" [.const (.string "x"), .ident "content"]) =
      (buildValueExpr exampleEnv exampleSchema (.const (.string "x"))).map
        (fun element => .ElementInCondition element "content") :=
  ⟨⟨rfl, fun _ h => Expr.noConfusion h⟩,
    (in_accepts_two_forms exampleEnv exampleSchema none
      [.const (.string "x"), .ident "content"]).2.2 _ _ fieldContent rfl rfl
      (fun _ h => Expr.noConfusion h)⟩

/-- C9: a top-level constant expression builds `Constant(b)` from a boolean
literal `b` and `Constant(n != 0)` from an integer literal `n` (so `0` gives
`Constant(false)` and a nonzero integer `Constant(true)`), and a string or
null literal fails with the must-evaluate-to-boolean error. -/
theorem top_level_constant (env : Env) (s : Schema) :
    (∀ b : Bool, buildCondition env s (.const (.bool b)) = .ok (.ConstantCondition b)) ∧
    (∀ n : Int, buildCondition env s (.const (.int64 n)) =
      .ok (.ConstantCondition (n != 0))) ∧
    buildCondition env s (.const (.int64 0)) = .ok (.ConstantCondition false) ∧
    (∀ n : Int, n ≠ 0 →
      buildCondition env s (.const (.int64 n)) = .ok (.ConstantCondition true)) ∧
    (∀ str : String, buildCondition env s (.const (.string str)) =
      .error .filterMustBeBoolean) ∧
    buildCondition env s (.const .null) = .error .filterMustBeBoolean := by
  refine ⟨?_, ?_, ?_, ?_, ?_, ?_⟩
  · intro b; simp [buildCondition, getConstValue]
  · intro n; simp [buildCondition, getConstValue]
  · simp [buildCondition, getConstValue]
  · intro n hn; simp [buildCondition, getConstValue, hn]
  · intro str; simp [buildCondition, getConstValue]
  · simp [buildCondition, getConstValue]

theorem top_level_constant_witness :
    (7 : Int) ≠ 0 ∧
    buildCondition exampleEnv exampleSchema (.const (.int64 7)) =
      .ok (.ConstantCondition true) :=
  ⟨by decide, (top_level_constant exampleEnv exampleSchema).2.2.2.1 7 (by decide)⟩

/-- C10 (counterexample): in `1 && true` the integer literal `1`, an operand
and not the whole expression, is coerced to `Constant(1 != 0)`. -/
theorem nested_numeric_literal_is_coerced :
    buildCondition exampleEnv exampleSchema
        (.call none "_&&_" [.const (.int64 1), .const (.bool true)]) =
      .ok (.LogicalCondition .LogicalAnd
        (.ConstantCondition ((1 : Int) != 0)) (.ConstantCondition true)) :=
  rfl

/-- C10 (amended): an integer literal is coerced to `Constant(n != 0)`
wherever it stands in condition position, as an operand of `&&`, `||` and `!`
just as at top level; in value position it stays the integer literal. -/
theorem numeric_literal_coerced_in_condition_position (env : Env) (s : Schema)
    (target : Option Expr) (n : Int) (e : Expr) (built : Condition)
    (he : buildCondition env s e = .ok built) :
    buildCondition env s (.call target "_&&_" [.const (.int64 n), e]) =
      .ok (.LogicalCondition .LogicalAnd (.ConstantCondition (n != 0)) built) ∧
    buildCondition env s (.call target "_||_" [e, .const (.int64 n)]) =
      .ok (.LogicalCondition .LogicalOr built (.ConstantCondition (n != 0))) ∧
    buildCondition env s (.call target "!_" [.const (.int64 n)]) =
      .ok (.NotCondition (.ConstantCondition (n != 0))) ∧
    buildValueExpr env s (.const (.int64 n)) = .ok (.LiteralValue (.int64 n)) := by
  have hn : buildCondition env s (.const (.int64 n)) = .ok (.ConstantCondition (n != 0)) := by
    simp [buildCondition, getConstValue]
  refine ⟨?_, ?_, ?_, ?_⟩
  · rw [buildCondition]; unfold buildCallCondition; simp [hn, he]
  · rw [buildCondition]; unfold buildCallCondition; simp [hn, he]
  · rw [buildCondition]; unfold buildCallCondition; simp [hn]
  · exact buildValueExpr_const env s _ _ rfl

theorem numeric_literal_coerced_in_condition_position_witness :
    buildCondition exampleEnv exampleSchema (.ident "pinned") =
      .ok (.FieldPredicateCondition "pinned") ∧
    buildCondition exampleEnv exampleSchema
        (.call none "_&&_" [.const (.int64 0), .ident "pinned"]) =
      .ok (.LogicalCondition .LogicalAnd (.ConstantCondition ((0 : Int) != 0))
        (.FieldPredicateCondition "pinned")) :=
  ⟨rfl,
    (numeric_literal_coerced_in_condition_position exampleEnv exampleSchema none 0
      (.ident "pinned") (.FieldPredicateCondition "pinned") rfl).1⟩

/-- C11: a bare identifier builds exactly when the schema has a field of that
name whose type is Bool, and the result is then `FieldPredicate(name)`; an
unknown identifier fails with the unknown-identifier error and a field of
another type with the not-boolean error. -/
theorem bare_identifier_builds_iff (env : Env) (s : Schema) (name : String) :
    (∀ built : Condition, buildCondition env s (.ident name) = .ok built ↔
      ∃ fieldDef : Field, s.Field name = some fieldDef ∧
        fieldDef.Typ = .FieldTypeBool ∧ built = .FieldPredicateCondition name) ∧
    (s.Field name = none →
      buildCondition env s (.ident name) = .error (.unknownIdentifier name)) ∧
    (∀ fieldDef : Field, s.Field name = some fieldDef →
      fieldDef.Typ ≠ .FieldTypeBool →
      buildCondition env s (.ident name) = .error (.identifierNotBoolean name)) := by
  refine ⟨?_, ?_, ?_⟩
  · intro built
    cases hf : s.Field name with
    | none => simp [buildCondition, hf]
    | some fieldDef =>
      by_cases ht : fieldDef.Typ = .FieldTypeBool
      · simp [buildCondition, hf, ht, eq_comm]
      · simp [buildCondition, hf, ht]
  · intro hf
    simp [buildCondition, hf]
  · intro fieldDef hf ht
    simp [buildCondition, hf, ht]

theorem bare_identifier_builds_iff_witness :
    (exampleSchema.Field "id" = some fieldId ∧ fieldId.Typ ≠ .FieldTypeBool) ∧
    buildCondition exampleEnv exampleSchema (.ident "id") =
      .error (.identifierNotBoolean "id") :=
  ⟨⟨rfl, by decide⟩,
    (bare_identifier_builds_iff exampleEnv exampleSchema "id").2.2 fieldId rfl (by decide)⟩

/-- C12: the logical connectives are structural and return no partial result.
With exactly two arguments `a`, `b` an `_&&_` / `_||_` call builds exactly
when both `a` and `b` build, and is then `Logical(And/Or, A, B)` of their
results in that order; with exactly one argument `a` a `!_` call builds
exactly when `a` builds and is then `Not(A)`; with any other argument count
these calls fail. -/
theorem logical_connectives_structural (env : Env) (s : Schema) (target : Option Expr) :
    (∀ (a b : Expr) (built : Condition),
      buildCondition env s (.call target "_&&_" [a, b]) = .ok built ↔
        ∃ A B, buildCondition env s a = .ok A ∧ buildCondition env s b = .ok B ∧
          built = .LogicalCondition .LogicalAnd A B) ∧
    (∀ (a b : Expr) (built : Condition),
      buildCondition env s (.call target "_||_" [a, b]) = .ok built ↔
        ∃ A B, buildCondition env s a = .ok A ∧ buildCondition env s b = .ok B ∧
          built = .LogicalCondition .LogicalOr A B) ∧
    (∀ (a : Expr) (built : Condition),
      buildCondition env s (.call target "!_" [a]) = .ok built ↔
        ∃ A, buildCondition env s a = .ok A ∧ built = .NotCondition A) ∧
    (∀ args : List Expr, args.length ≠ 2 →
      buildCondition env s (.call target "_&&_" args) = .error .andExpectsTwo ∧
      buildCondition env s (.call target "_||_" args) = .error .orExpectsTwo) ∧
    (∀ args : List Expr, args.length ≠ 1 →
      buildCondition env s (.call target "!_" args) = .error .notExpectsOne) := by
  refine ⟨?_, ?_, ?_, ?_, ?_⟩
  · intro a b built
    rw [buildCondition_call]
    unfold buildCallCondition
    cases ha : buildCondition env s a <;> cases hb : buildCondition env s b <;>
      simp [ha, hb, eq_comm]
  · intro a b built
    rw [buildCondition_call]
    unfold buildCallCondition
    cases ha : buildCondition env s a <;> cases hb : buildCondition env s b <;>
      simp [ha, hb, eq_comm]
  · intro a built
    rw [buildCondition_call]
    unfold buildCallCondition
    cases ha : buildCondition env s a <;> simp [ha, eq_comm]
  · intro args hlen
    rw [buildCondition_call, buildCondition_call]
    unfold buildCallCondition
    match args, hlen with
    | [], _ => simp
    | [_], _ => simp
    | [_, _], h => simp at h
    | _ :: _ :: _ :: _, _ => simp
  · intro args hlen
    rw [buildCondition_call]
    unfold buildCallCondition
    match args, hlen with
    | [], _ => simp
    | [_], h => simp at h
    | _ :: _ :: _, _ => simp

theorem logical_connectives_structural_witness :
    [Expr.ident "pinned"].length ≠ 2 ∧
    buildCondition exampleEnv exampleSchema (.call none "_&&_" [.ident "pinned"]) =
      .error .andExpectsTwo :=
  ⟨by decide,
    ((logical_connectives_structural exampleEnv exampleSchema none).2.2.2.1
      [.ident "pinned"] (by decide)).1⟩
/-- C13: with the clock reading `t` of the build as a parameter, the operand
`now() - 3600` builds, for every schema, the `int64` literal `t - 3600`, the
subtraction being Go's `int64` subtraction; it is the integer `t - 3600`
whenever that is an `int64`, and then the literals of two builds differ by
exactly the difference of their clock readings. -/
theorem now_minus_3600_folds (target nowTarget : Option Expr) (nowArgs : List Expr) :
    (∀ (env : Env) (s : Schema),
      buildValueExpr env s
          (.call target "_-_" [.call nowTarget "now" nowArgs, .const (.int64 3600)]) =
        .ok (.LiteralValue (.int64 (wrapInt64 (env.timeNowUnix - 3600))))) ∧
    (∀ (env : Env) (s : Schema),
      -(2 ^ 63) + 3600 ≤ env.timeNowUnix → env.timeNowUnix < 2 ^ 63 →
      buildValueExpr env s
          (.call target "_-_" [.call nowTarget "now" nowArgs, .const (.int64 3600)]) =
        .ok (.LiteralValue (.int64 (env.timeNowUnix - 3600)))) ∧
    (∀ (env env' : Env) (s s' : Schema),
      -(2 ^ 63) + 3600 ≤ env.timeNowUnix → env.timeNowUnix < 2 ^ 63 →
      -(2 ^ 63) + 3600 ≤ env'.timeNowUnix → env'.timeNowUnix < 2 ^ 63 →
      ∃ v v' : Int,
        buildValueExpr env s
            (.call target "_-_" [.call nowTarget "now" nowArgs, .const (.int64 3600)]) =
          .ok (.LiteralValue (.int64 v)) ∧
        buildValueExpr env' s'
            (.call target "_-_" [.call nowTarget "now" nowArgs, .const (.int64 3600)]) =
          .ok (.LiteralValue (.int64 v')) ∧
        v' - v = env'.timeNowUnix - env.timeNowUnix) := by
  have hbuild : ∀ (e : Env) (sch : Schema),
      buildValueExpr e sch
          (.call target "_-_" [.call nowTarget "now" nowArgs, .const (.int64 3600)]) =
        .ok (.LiteralValue (.int64 (wrapInt64 (e.timeNowUnix - 3600)))) := by
    intro e sch
    rw [buildValueExpr_call, evaluateNumeric_call]
    simp [evaluateNumeric_call, evaluateNumeric_const, getConstValue]
  have hw : ∀ e : Env, -(2 ^ 63) + 3600 ≤ e.timeNowUnix → e.timeNowUnix < 2 ^ 63 →
      wrapInt64 (e.timeNowUnix - 3600) = e.timeNowUnix - 3600 :=
    fun e hlo hhi => wrapInt64_of_inRange _ (by omega) (by omega)
  refine ⟨hbuild, ?_, ?_⟩
  · intro env s hlo hhi
    rw [hbuild, hw env hlo hhi]
  · intro env env' s s' hlo hhi hlo' hhi'
    refine ⟨env.timeNowUnix - 3600, env'.timeNowUnix - 3600, ?_, ?_, ?_⟩
    · rw [hbuild, hw env hlo hhi]
    · rw [hbuild, hw env' hlo' hhi']
    · omega

theorem now_minus_3600_folds_witness :
    (-(2 ^ 63) + 3600 ≤ exampleEnv.timeNowUnix ∧ exampleEnv.timeNowUnix < 2 ^ 63) ∧
    buildValueExpr exampleEnv exampleSchema
        (.call none "_-_" [.call none "now" [], .const (.int64 3600)]) =
      .ok (.LiteralValue (.int64 (1700000000 - 3600))) :=
  ⟨⟨by decide, by decide⟩,
    (now_minus_3600_folds none none []).2.1 exampleEnv exampleSchema
      (by decide) (by decide)⟩

/-- C14: for a tree of `int64` literals and two-argument `_+_`, `_-_`, `_*_`
calls, `evaluateNumeric` reports a foldable value with no error, that value
being the value of the tree in 64-bit two's-complement arithmetic, and
`buildValueExpr` returns the literal of that value. The literals being
`int64`s, the value lies in the `int64` range and is congruent modulo `2 ^ 64`
to the value of the tree in unbounded arithmetic: it is the unbounded value
wrapped. -/
theorem arithmetic_folds_in_int64 (env : Env) (s : Schema) (t : ArithTree) :
    evaluateNumeric env t.toExpr = .ok (some t.value64) ∧
    buildValueExpr env s t.toExpr = .ok (.LiteralValue (.int64 t.value64)) ∧
    (t.literalsInRange = true →
      t.value64 = wrapInt64 t.exactValue ∧
      (-(2 ^ 63) ≤ t.value64 ∧ t.value64 < 2 ^ 63) ∧
      t.value64 ≡ t.exactValue [ZMOD 2 ^ 64]) := by
  refine ⟨evaluateNumeric_arithTree env t, ?_, ?_⟩
  · cases t with
    | lit n => exact buildValueExpr_const env s _ _ rfl
    | node op l r =>
      have h := evaluateNumeric_arithTree env (.node op l r)
      rw [ArithTree.toExpr] at h ⊢
      rw [buildValueExpr_call, h]
  · intro hlits
    have hv := t.value64_eq_wrap hlits
    refine ⟨hv, ?_, t.value64_modEq⟩
    rw [hv]
    exact wrapInt64_inRange _

theorem arithmetic_folds_in_int64_witness :
    (ArithTree.node .add (.lit (2 ^ 63 - 1)) (.node .mul (.lit 1) (.lit 1))).literalsInRange
      = true ∧
    buildValueExpr exampleEnv exampleSchema
        (.call none "_+_" [.const (.int64 (2 ^ 63 - 1)),
          .call none "_*_" [.const (.int64 1), .const (.int64 1)]]) =
      .ok (.LiteralValue (.int64 (-(2 ^ 63)))) ∧
    (ArithTree.node .add (.lit (2 ^ 63 - 1)) (.node .mul (.lit 1) (.lit 1))).value64 =
      wrapInt64 (2 ^ 63 - 1 + 1 * 1) :=
  ⟨by decide,
    (arithmetic_folds_in_int64 exampleEnv exampleSchema
      (.node .add (.lit (2 ^ 63 - 1)) (.node .mul (.lit 1) (.lit 1)))).2.1,
    ((arithmetic_folds_in_int64 exampleEnv exampleSchema
      (.node .add (.lit (2 ^ 63 - 1)) (.node .mul (.lit 1) (.lit 1)))).2.2 (by decide)).1⟩

/-- C15: value-building tries the literal interpretation before numeric
folding: a constant holding a string, an int64, a double, a bool or null
builds the literal of exactly that value and type; a double stays a double
and null yields the nil literal. -/
theorem constant_builds_its_literal (env : Env) (s : Schema) :
    (∀ v : String, buildValueExpr env s (.const (.string v)) =
      .ok (.LiteralValue (.string v))) ∧
    (∀ v : Int, buildValueExpr env s (.const (.int64 v)) =
      .ok (.LiteralValue (.int64 v))) ∧
    (∀ v : F64, buildValueExpr env s (.const (.double v)) =
      .ok (.LiteralValue (.float64 v))) ∧
    (∀ v : Bool, buildValueExpr env s (.const (.bool v)) =
      .ok (.LiteralValue (.bool v))) ∧
    buildValueExpr env s (.const .null) = .ok (.LiteralValue .null) :=
  ⟨fun _ => buildValueExpr_const env s _ _ rfl,
    fun _ => buildValueExpr_const env s _ _ rfl,
    fun _ => buildValueExpr_const env s _ _ rfl,
    fun _ => buildValueExpr_const env s _ _ rfl,
    buildValueExpr_const env s _ _ rfl⟩


/-- C16: if `buildCondition` succeeds, every `Function` value node of the
resulting condition is named `size` and has exactly one argument, itself a
value built by `buildValueExpr`; no node is named `now`, and a `now()` call in
value position always builds a literal. -/
theorem only_size_function_nodes (env : Env) (s : Schema) (e : Expr) (c : Condition)
    (h : buildCondition env s e = .ok c) :
    (∀ node ∈ c.functionNodes,
      node.1 = "size" ∧
        ∃ (arg : ValueExpr) (a : Expr), node.2 = [arg] ∧ buildValueExpr env s a = .ok arg) ∧
    (∀ node ∈ c.functionNodes, node.1 ≠ "now") ∧
    (∀ (t : Option Expr) (args : List Expr),
      buildValueExpr env s (.call t "now" args) =
        .ok (.LiteralValue (.int64 env.timeNowUnix))) := by
  have hnodes := buildCondition_sizeNodes env s e c h
  refine ⟨hnodes, ?_, buildValueExpr_now env s⟩
  intro node hnode hnow
  have := (hnodes node hnode).1
  rw [this] at hnow
  exact absurd hnow (by decide)

theorem only_size_function_nodes_witness :
    buildCondition exampleEnv exampleSchema
        (.call none "_<_" [.call none "size" [.ident "content"], .call none "now" []]) =
      .ok (.ComparisonCondition (.FunctionValue "size" [.FieldRef "content"]) .CompareLt
        (.LiteralValue (.int64 1700000000))) ∧
    ∀ node ∈ [("size", [ValueExpr.FieldRef "content"])], node.1 ≠ "now" :=
  ⟨rfl,
    (only_size_function_nodes exampleEnv exampleSchema
      (.call none "_<_" [.call none "size" [.ident "content"], .call none "now" []])
      (.ComparisonCondition (.FunctionValue "size" [.FieldRef "content"]) .CompareLt
        (.LiteralValue (.int64 1700000000))) rfl).2.1⟩

/-- C25: boolean folding over `not`. The `n`-fold negation of a boolean
literal `b` folds to `b xor (n is odd)` with no error, so `!true` builds
`Literal(false)`, and in general the chain builds the literal of that value;
a double negation folds to what its operand folds to. When the innermost
operand is not a boolean constant (an identifier, a constant that is not a
boolean, a call other than `!_`), the result is "not a boolean constant" with
no error. -/
theorem not_chain_folds (env : Env) (s : Schema) :
    (∀ (b : Bool) (n : Nat),
      evaluateBoolExpr (negations n (.const (.bool b))) =
        .ok (some (b ^^ decide (n % 2 = 1)))) ∧
    buildValueExpr env s (.call none "!_" [.const (.bool true)]) =
      .ok (.LiteralValue (.bool false)) ∧
    (∀ (b : Bool) (n : Nat),
      buildValueExpr env s (negations n (.const (.bool b))) =
        .ok (.LiteralValue (.bool (b ^^ decide (n % 2 = 1))))) ∧
    (∀ (t1 t2 : Option Expr) (e : Expr),
      evaluateBoolExpr (.call t1 "!_" [.call t2 "!_" [e]]) = evaluateBoolExpr e) ∧
    (∀ (n : Nat) (x : Expr),
      ((∃ name, x = .ident name) ∨ (∃ c, x = .const c ∧ ∀ b, c ≠ .bool b) ∨
        (∃ t fn args, x = .call t fn args ∧ fn ≠ "!_")) →
      evaluateBoolExpr (negations n x) = .ok none) := by
  have hchain : ∀ (b : Bool) (n : Nat),
      buildValueExpr env s (negations n (.const (.bool b))) =
        .ok (.LiteralValue (.bool (b ^^ decide (n % 2 = 1)))) := by
    intro b n
    cases n with
    | zero =>
      rw [negations, buildValueExpr_const env s (.bool b) (.bool b) rfl]
      simp
    | succ k =>
      have h := evaluateBoolExpr_negations_bool b (k + 1)
      rw [negations] at h ⊢
      rw [buildValueExpr_call, evaluateNumeric_call, h]
      simp
  refine ⟨evaluateBoolExpr_negations_bool, ?_, hchain, ?_, ?_⟩
  · exact hchain true 1
  · intro t1 t2 e
    rw [evaluateBoolExpr_not, evaluateBoolExpr_not]
    cases h : evaluateBoolExpr e with
    | error err => rfl
    | ok v => cases v <;> simp
  · intro n x hx
    apply evaluateBoolExpr_negations_none
    rcases hx with ⟨name, rfl⟩ | ⟨c, rfl, hc⟩ | ⟨t, fn, args, rfl, hfn⟩
    · simp [evaluateBoolExpr, getConstValue]
    · cases c <;> simp [evaluateBoolExpr, getConstValue] at hc ⊢
    · rw [evaluateBoolExpr_call, if_neg hfn]

theorem not_chain_folds_witness :
    ((∃ name, Expr.ident "pinned" = .ident name) ∨
      (∃ c, Expr.ident "pinned" = .const c ∧ ∀ b, c ≠ .bool b) ∨
      (∃ t fn args, Expr.ident "pinned" = .call t fn args ∧ fn ≠ "!_")) ∧
    evaluateBoolExpr (.call none "!_" [.call none "!_" [.ident "pinned"]]) = .ok none :=
  ⟨Or.inl ⟨"pinned", rfl⟩,
    (not_chain_folds exampleEnv exampleSchema).2.2.2.2 2 (.ident "pinned")
      (Or.inl ⟨"pinned", rfl⟩)⟩

/-- C26: for an arithmetic call (`_+_`, `_-_` or `_*_`) with exactly two
arguments, one a field identifier or a string literal and the other an integer
literal, in either order, `evaluateNumeric` returns "not foldable" with no
error, and `buildValueExpr` of the call fails with the unsupported-value
error. -/
theorem arithmetic_on_field_not_foldable (env : Env) (s : Schema) (target : Option Expr)
    (op : ArithOp) (x : Expr) (n : Int)
    (hx : (∃ name, x = .ident name) ∨ (∃ str, x = .const (.string str))) :
    evaluateNumeric env (.call target op.symbol [x, .const (.int64 n)]) = .ok none ∧
    evaluateNumeric env (.call target op.symbol [.const (.int64 n), x]) = .ok none ∧
    buildValueExpr env s (.call target op.symbol [x, .const (.int64 n)]) =
      .error .unsupportedValue ∧
    buildValueExpr env s (.call target op.symbol [.const (.int64 n), x]) =
      .error .unsupportedValue := by
  have hxn : evaluateNumeric env x = .ok none := by
    rcases hx with ⟨name, rfl⟩ | ⟨str, rfl⟩
    · exact evaluateNumeric_ident env name
    · simp [evaluateNumeric_const, getConstValue]
  have hn : evaluateNumeric env (.const (.int64 n)) = .ok (some n) := by
    simp [evaluateNumeric_const, getConstValue]
  have h1 : evaluateNumeric env (.call target op.symbol [x, .const (.int64 n)]) = .ok none := by
    rw [evaluateNumeric_call]
    cases op <;> simp [ArithOp.symbol, hxn]
  have h2 : evaluateNumeric env (.call target op.symbol [.const (.int64 n), x]) = .ok none := by
    rw [evaluateNumeric_call]
    cases op <;> simp [ArithOp.symbol, hxn, hn]
  refine ⟨h1, h2, ?_, ?_⟩
  · rw [buildValueExpr_call, h1, evaluateBoolExpr_call]
    cases op <;> simp [ArithOp.symbol]
  · rw [buildValueExpr_call, h2, evaluateBoolExpr_call]
    cases op <;> simp [ArithOp.symbol]

theorem arithmetic_on_field_not_foldable_witness :
    ((∃ name, Expr.ident "id" = .ident name) ∨
      (∃ str, Expr.ident "id" = .const (.string str))) ∧
    buildValueExpr exampleEnv exampleSchema
        (.call none "_+_" [.ident "id", .const (.int64 1)]) =
      .error .unsupportedValue :=
  ⟨Or.inl ⟨"id", rfl⟩,
    (arithmetic_on_field_not_foldable exampleEnv exampleSchema none .add (.ident "id") 1
      (Or.inl ⟨"id", rfl⟩)).2.2.1⟩

/-- C27: the constant-boolean fold in the fallback branch of
`buildCallCondition` never succeeds: for a call whose function symbol is none
of `_&&_`, `_||_`, `!_`, the six comparison operators, `@in` and `contains`,
the fold reports "not a boolean constant", and `buildCondition` fails with
the unsupported-call error, for every schema, target and argument list; it
never returns a `Constant`. -/
theorem fallback_fold_never_succeeds (env : Env) (s : Schema) (target : Option Expr)
    (fn : String) (args : List Expr)
    (hfn : fn ∉ ["_&&_", "_||_", "!_", "_==_", "_!=_", "_<_", "_>_", "_<=_", "_>=_",
      "@in", "contains"]) :
    evaluateBool target fn args = .ok none ∧
    buildCondition env s (.call target fn args) = .error (.unsupportedCall fn) ∧
    ∀ b : Bool, buildCondition env s (.call target fn args) ≠ .ok (.ConstantCondition b) := by
  simp only [List.mem_cons, List.mem_singleton, List.not_mem_nil, or_false, not_or] at hfn
  obtain ⟨h1, h2, h3, h4, h5, h6, h7, h8, h9, h10, h11⟩ := hfn
  have hfold : evaluateBool target fn args = .ok none := by
    rw [evaluateBool, evaluateBoolExpr_call, if_neg h3]
  have hbuild : buildCondition env s (.call target fn args) = .error (.unsupportedCall fn) := by
    rw [buildCondition_call]
    unfold buildCallCondition
    simp [h1, h2, h3, h4, h5, h6, h7, h8, h9, h10, h11, hfold]
  refine ⟨hfold, hbuild, ?_⟩
  intro b h
  rw [hbuild] at h
  cases h

theorem fallback_fold_never_succeeds_witness :
    "startsWith" ∉ ["_&&_", "_||_", "!_", "_==_", "_!=_", "_<_", "_>_", "_<=_", "_>=_",
      "@in", "contains"] ∧
    buildCondition exampleEnv exampleSchema
        (.call (some (.ident "content")) "startsWith" [.const (.string "x")]) =
      .error (.unsupportedCall "startsWith") :=
  ⟨by decide,
    (fallback_fold_never_succeeds exampleEnv exampleSchema (some (.ident "content"))
      "startsWith" [.const (.string "x")] (by decide)).2.1⟩

/-- C28: the operator whitelist is applied only when the field is the left
operand: for a Normal field `f` whose `AllowedComparisonOps` is a non-nil set
without `op` and a literal `L`, `L op f` builds
`Comparison(Literal L, op, FieldRef f)` although `f op L` is rejected with the
operator-not-allowed error. -/
theorem whitelist_only_on_left_operand (env : Env) (s : Schema) (target : Option Expr)
    (name : String) (fieldDef : Field) (S : List ComparisonOperator)
    (fn : String) (op : ComparisonOperator) (c : Constant) (v : Value)
    (hfield : s.Field name = some fieldDef)
    (hkind : fieldDef.Kind = .FieldKindNormal)
    (hops : fieldDef.AllowedComparisonOps = some S)
    (hnot : op ∉ S)
    (hop : toComparisonOperator fn = .ok op)
    (hlit : getConstValue (.const c) = .ok v) :
    buildCondition env s (.call target fn [.const c, .ident name]) =
      .ok (.ComparisonCondition (.LiteralValue v) op (.FieldRef name)) ∧
    buildCondition env s (.call target fn [.ident name, .const c]) =
      .error (.operatorNotAllowed op name) := by
  rw [buildCondition_comparison env s target hop, buildCondition_comparison env s target hop]
  constructor
  · simp [buildComparisonCondition, hop, buildValueExpr_ident, hfield,
      buildValueExpr_const env s c v hlit]
  · simp [buildComparisonCondition, hop, buildValueExpr_ident, hfield,
      buildValueExpr_const env s c v hlit, hkind, hops, hnot]

theorem whitelist_only_on_left_operand_witness :
    (exampleSchema.Field "id" = some fieldId ∧
      fieldId.Kind = .FieldKindNormal ∧
      fieldId.AllowedComparisonOps = some [.CompareEq, .CompareNeq] ∧
      ComparisonOperator.CompareGt ∉ [ComparisonOperator.CompareEq, .CompareNeq] ∧
      toComparisonOperator "_>_" = .ok .CompareGt ∧
      getConstValue (.const (.int64 1)) = .ok (.int64 1)) ∧
    buildCondition exampleEnv exampleSchema
        (.call none "_>_" [.const (.int64 1), .ident "id"]) =
      .ok (.ComparisonCondition (.LiteralValue (.int64 1)) .CompareGt (.FieldRef "id")) :=
  ⟨⟨rfl, rfl, rfl, by decide, rfl, rfl⟩,
    (whitelist_only_on_left_operand exampleEnv exampleSchema none "id" fieldId
      [.CompareEq, .CompareNeq] "_>_" .CompareGt (.int64 1) (.int64 1)
      rfl rfl rfl (by decide) rfl rfl).1⟩

end Filter

/-! # Theorems on listing memo relations -/

namespace Store

/-- C17 (counterexample): in the PostgreSQL store the example filter lowers to
the non-empty text `memo.creator_id = $2` with the one argument `7`; the text
is spliced into both predicates but the argument list is `[5, 7]`, the
argument appended once, not `[5] ++ [7] ++ [7]`. -/
theorem postgres_appends_filter_args_once :
    (exampleFind.MemoFilter = some "creator_id == 7" ∧
      (Postgres.basePredicates exampleFind).2 = [.int32 5] ∧
      examplePostgresConvert 1 (.call none "_==_" [.ident "creator_id", .const (.int64 7)]) =
        .ok ("memo.creator_id = $2", [.int32 7])) ∧
    Postgres.listMemoRelationsWhere exampleParse examplePostgresConvert exampleFind =
      .ok (["1 = 1", "memo_id = $1",
            "memo_id IN (SELECT id FROM memo WHERE memo.creator_id = $2)",
            "related_memo_id IN (SELECT id FROM memo WHERE memo.creator_id = $2)"],
           [.int32 5, .int32 7]) ∧
    ([.int32 5, .int32 7] : List BindArg) ≠ [.int32 5] ++ [.int32 7] ++ [.int32 7] :=
  ⟨⟨rfl, rfl, rfl⟩, rfl, by decide⟩

/-- C17 (amended): when the memo filter lowers to a non-empty condition text
`C` with argument list `A`, both stores splice `C` into two predicates (the
`memo_id` subquery and the `related_memo_id` subquery) after the preceding
predicates, whose arguments are `P`. The MySQL store, with positional
placeholders, appends `A` once per occurrence: the arguments are
`P ++ A ++ A`. The PostgreSQL store, whose converter numbers the placeholders
from `len(P)` on, appends `A` once: the arguments are `P ++ A`. -/
theorem memo_filter_spliced_twice {ε : Type} (parse : String → Except ε Filter.Expr)
    (convertMySQL : Filter.Expr → Except ε (String × List BindArg))
    (convertPostgres : Nat → Filter.Expr → Except ε (String × List BindArg))
    (find : FindMemoRelation) (memoFilter : String) (parsedExpr : Filter.Expr)
    (hfilter : find.MemoFilter = some memoFilter)
    (hparse : parse memoFilter = .ok parsedExpr) :
    (∀ (C : String) (A : List BindArg), C ≠ "" → convertMySQL parsedExpr = .ok (C, A) →
      MySQL.listMemoRelationsWhere parse convertMySQL find =
        .ok ((MySQL.basePredicates find).1 ++
              ["memo_id IN (SELECT id FROM memo WHERE " ++ C ++ ")",
               "related_memo_id IN (SELECT id FROM memo WHERE " ++ C ++ ")"],
             (MySQL.basePredicates find).2 ++ A ++ A)) ∧
    (∀ (C : String) (A : List BindArg), C ≠ "" →
      convertPostgres (Postgres.basePredicates find).2.length parsedExpr = .ok (C, A) →
      Postgres.listMemoRelationsWhere parse convertPostgres find =
        .ok ((Postgres.basePredicates find).1 ++
              ["memo_id IN (SELECT id FROM memo WHERE " ++ C ++ ")",
               "related_memo_id IN (SELECT id FROM memo WHERE " ++ C ++ ")"],
             (Postgres.basePredicates find).2 ++ A)) := by
  constructor
  · intro C A hC hconv
    simp [MySQL.listMemoRelationsWhere, hfilter, hparse, hconv, hC, filterPredicates]
  · intro C A hC hconv
    simp [Postgres.listMemoRelationsWhere, hfilter, hparse, hconv, hC, filterPredicates]

theorem memo_filter_spliced_twice_witness :
    (exampleFind.MemoFilter = some "creator_id == 7" ∧
      exampleParse "creator_id == 7" =
        .ok (.call none "_==_" [.ident "creator_id", .const (.int64 7)]) ∧
      "`memo`.`creator_id` = ?" ≠ "" ∧
      exampleMySQLConvert (.call none "_==_" [.ident "creator_id", .const (.int64 7)]) =
        .ok ("`memo`.`creator_id` = ?", [.int32 7])) ∧
    MySQL.listMemoRelationsWhere exampleParse exampleMySQLConvert exampleFind =
      .ok (["TRUE", "`memo_id` = ?",
            "memo_id IN (SELECT id FROM memo WHERE `memo`.`creator_id` = ?)",
            "related_memo_id IN (SELECT id FROM memo WHERE `memo`.`creator_id` = ?)"],
           [.int32 5, .int32 7, .int32 7]) :=
  ⟨⟨rfl, rfl, by decide, rfl⟩,
    (memo_filter_spliced_twice exampleParse exampleMySQLConvert examplePostgresConvert
      exampleFind "creator_id == 7"
      (.call none "_==_" [.ident "creator_id", .const (.int64 7)]) rfl rfl).1
      "`memo`.`creator_id` = ?" [.int32 7] (by decide) rfl⟩

end Store

/-! # Theorems on resource names -/

namespace ResourceName

/-! ## Splitting and joining -/

theorem splitChars_ne_nil (sep : Char) (cs : List Char) : splitChars sep cs ≠ [] := by
  cases cs with
  | nil => simp [splitChars]
  | cons c cs =>
    rw [splitChars]
    split_ifs
    · simp
    · split <;> simp

theorem splitChars_sep_free (sep : Char) (cs : List Char) :
    ∀ p ∈ splitChars sep cs, sep ∉ p := by
  induction cs with
  | nil => simp [splitChars]
  | cons c cs ih =>
    rw [splitChars]
    split_ifs with hc
    · intro p hp
      rcases List.mem_cons.1 hp with rfl | hp
      · simp
      · exact ih p hp
    · split
      · simp [Ne.symm hc]
      · rename_i q qs hq
        rw [hq] at ih
        intro p hp
        rcases List.mem_cons.1 hp with rfl | hp
        · intro hmem
          rcases List.mem_cons.1 hmem with h | h
          · exact hc h.symm
          · exact ih q (by simp) h
        · exact ih p (by simp [hp])

theorem joinChars_cons (sep : Char) (p : List Char) (ps : List (List Char)) (h : ps ≠ []) :
    joinChars sep (p :: ps) = p ++ sep :: joinChars sep ps := by
  cases ps with
  | nil => exact absurd rfl h
  | cons q rest => rw [joinChars]

theorem joinChars_splitChars (sep : Char) (cs : List Char) :
    joinChars sep (splitChars sep cs) = cs := by
  induction cs with
  | nil => simp [splitChars, joinChars]
  | cons c cs ih =>
    rw [splitChars]
    split_ifs with hc
    · rw [joinChars_cons sep _ _ (splitChars_ne_nil sep cs), ih, hc]
      rfl
    · split
      · rename_i hq
        exact absurd hq (splitChars_ne_nil sep cs)
      · rename_i q qs hq
        rw [hq] at ih
        cases qs with
        | nil =>
          simp only [joinChars] at ih ⊢
          rw [ih]
        | cons r rest =>
          rw [joinChars] at ih ⊢
          rw [List.cons_append, ih]

theorem splitChars_of_free (sep : Char) (p : List Char) (h : sep ∉ p) :
    splitChars sep p = [p] := by
  induction p with
  | nil => simp [splitChars]
  | cons c cs ih =>
    have hc : c ≠ sep := fun hc => h (by simp [hc])
    have hcs : sep ∉ cs := fun hm => h (by simp [hm])
    rw [splitChars, if_neg hc, ih hcs]

theorem splitChars_append_sep (sep : Char) (p cs : List Char) (h : sep ∉ p) :
    splitChars sep (p ++ sep :: cs) = p :: splitChars sep cs := by
  induction p with
  | nil => simp [splitChars]
  | cons c p ih =>
    have hc : c ≠ sep := fun hc => h (by simp [hc])
    have hp : sep ∉ p := fun hm => h (by simp [hm])
    rw [List.cons_append, splitChars, if_neg hc, ih hp]

theorem splitChars_joinChars (sep : Char) (parts : List (List Char))
    (hne : parts ≠ []) (hfree : ∀ p ∈ parts, sep ∉ p) :
    splitChars sep (joinChars sep parts) = parts := by
  induction parts with
  | nil => exact absurd rfl hne
  | cons p ps ih =>
    cases ps with
    | nil =>
      rw [joinChars]
      exact splitChars_of_free sep p (hfree p (by simp))
    | cons q rest =>
      rw [joinChars, splitChars_append_sep sep p _ (hfree p (by simp)),
        ih (by simp) (fun r hr => hfree r (by simp [hr]))]

theorem stringsJoin_data (parts : List String) :
    (stringsJoin parts "/").data = joinChars '/' (parts.map String.data) := by
  induction parts with
  | nil => rfl
  | cons p ps ih =>
    cases ps with
    | nil => rfl
    | cons q rest =>
      rw [stringsJoin, List.map_cons, List.map_cons, joinChars, String.data_append,
        String.data_append, ih]
      simp

theorem stringsJoin_split (s : String) : stringsJoin (stringsSplit s '/') "/" = s := by
  apply String.ext
  rw [stringsJoin_data, stringsSplit, List.map_map]
  have : String.data ∘ String.mk = id := by funext l; rfl
  rw [this, List.map_id, joinChars_splitChars]

theorem stringsSplit_join (parts : List String) (hne : parts ≠ [])
    (hfree : ∀ p ∈ parts, SlashFree p) :
    stringsSplit (stringsJoin parts "/") '/' = parts := by
  rw [stringsSplit, stringsJoin_data, splitChars_joinChars]
  · rw [List.map_map]
    have : String.mk ∘ String.data = id := by funext l; rfl
    rw [this, List.map_id]
  · simpa using hne
  · intro p hp
    obtain ⟨q, hq, rfl⟩ := List.mem_map.1 hp
    exact hfree q hq

theorem stringsSplit_slashFree (s : String) : ∀ p ∈ stringsSplit s '/', SlashFree p := by
  intro p hp
  obtain ⟨q, hq, rfl⟩ := List.mem_map.1 hp
  exact splitChars_sep_free '/' s.data q hq

theorem drop_eq_cons_cons {l : List String} {n : Nat} {a b : String} {tail : List String}
    (h : l.drop n = a :: b :: tail) :
    l.getD n "" = a ∧ l.getD (n + 1) "" = b ∧ l.drop (n + 2) = tail := by
  induction l generalizing n with
  | nil => simp at h
  | cons x xs ih =>
    cases n with
    | zero =>
      simp only [List.drop_zero, List.cons.injEq] at h
      obtain ⟨rfl, rfl⟩ := h
      simp
    | succ m =>
      simp only [List.drop_succ_cons] at h
      have := ih h
      simpa using this

theorem tokensLoop_ok_iff (name : String) (parts : List String) :
    ∀ (ps : List String) (i : Nat) (acc ts : List String),
      (parts.drop (2 * i)).length = 2 * ps.length →
      (tokensLoop name parts i ps acc = .ok ts ↔
        ∃ stems toks : List String,
          stems.length = ps.length ∧ toks.length = ps.length ∧
          parts.drop (2 * i) = interleave stems toks ∧
          ps = stems.map (fun s => s ++ "/") ∧
          (∀ t ∈ toks, t ≠ "") ∧ ts = acc ++ toks) := by
  intro ps
  induction ps with
  | nil =>
    intro i acc ts hlen
    have hdrop : parts.drop (2 * i) = [] := List.length_eq_zero.1 (by simpa using hlen)
    rw [tokensLoop, hdrop]
    constructor
    · intro h
      cases h
      exact ⟨[], [], rfl, rfl, rfl, rfl, by simp, by simp⟩
    · rintro ⟨stems, toks, hs, ht, -, -, -, rfl⟩
      have : toks = [] := List.length_eq_zero.1 ht
      simp [this]
  | cons p rest ih =>
    intro i acc ts hlen
    obtain ⟨a, b, tail, hdrop⟩ : ∃ a b tail, parts.drop (2 * i) = a :: b :: tail := by
      match hd : parts.drop (2 * i), hlen with
      | [], h => simp [hd] at h
      | [_], h => simp [hd] at h; omega
      | a :: b :: tail, _ => exact ⟨a, b, tail, rfl⟩
    obtain ⟨ha, hb, htail⟩ := drop_eq_cons_cons hdrop
    have hlen' : (parts.drop (2 * (i + 1))).length = 2 * rest.length := by
      have : 2 * (i + 1) = 2 * i + 2 := by ring
      rw [this, htail]
      rw [hdrop] at hlen
      simp at hlen
      omega
    have hdrop' : parts.drop (2 * (i + 1)) = tail := by
      have : 2 * (i + 1) = 2 * i + 2 := by ring
      rw [this, htail]
    rw [tokensLoop, ha, hb, hdrop]
    by_cases hp : a ++ "/" = p
    · by_cases hbe : b = ""
      · simp only [hp, hbe, ne_eq, not_true_eq_false, if_false, if_true]
        constructor
        · intro h; cases h
        · rintro ⟨stems, toks, hs, ht, hi, -, hne, -⟩
          match stems, toks, hs, ht, hi with
          | s :: ss, t :: tt, _, _, hi =>
            simp only [interleave, List.cons.injEq] at hi
            exact absurd hi.2.1.symm (hne t (by simp))
      · simp only [hp, hbe, ne_eq, not_true_eq_false, if_false]
        rw [ih (i + 1) (acc ++ [b]) ts hlen', hdrop']
        constructor
        · rintro ⟨stems, toks, hs, ht, hi, hps, hne, rfl⟩
          refine ⟨a :: stems, b :: toks, by simp [hs], by simp [ht], by simp [interleave, hi],
            by simp [hp, hps], ?_, by simp⟩
          intro t htm
          rcases List.mem_cons.1 htm with rfl | htm
          · exact hbe
          · exact hne t htm
        · rintro ⟨stems, toks, hs, ht, hi, hps, hne, rfl⟩
          match stems, toks, hs, ht, hi, hps, hne with
          | s :: ss, t :: tt, hs, ht, hi, hps, hne =>
            simp only [interleave, List.cons.injEq] at hi
            obtain ⟨rfl, rfl, hi⟩ := hi
            simp only [List.map_cons, List.cons.injEq] at hps
            exact ⟨ss, tt, by simpa using hs, by simpa using ht, hi, hps.2,
              fun t ht => hne t (by simp [ht]), by simp⟩
    · simp only [hp, ne_eq, not_false_eq_true, if_true]
      constructor
      · intro h; cases h
      · rintro ⟨stems, toks, hs, ht, hi, hps, -, -⟩
        match stems, toks, hs, ht, hi, hps with
        | s :: ss, t :: tt, _, _, hi, hps =>
          simp only [interleave, List.cons.injEq] at hi
          simp only [List.map_cons, List.cons.injEq] at hps
          exact absurd (by rw [hi.1]; exact hps.1.symm) hp

theorem interleave_length (stems toks : List String) (h : stems.length = toks.length) :
    (interleave stems toks).length = 2 * toks.length := by
  induction stems generalizing toks with
  | nil =>
    cases toks with
    | nil => rfl
    | cons t tt => simp at h
  | cons s ss ih =>
    cases toks with
    | nil => simp at h
    | cons t tt =>
      simp only [interleave, List.length_cons]
      rw [ih tt (by simpa using h)]
      ring

theorem mem_interleave {stems toks : List String} {x : String}
    (h : x ∈ interleave stems toks) : x ∈ stems ∨ x ∈ toks := by
  induction stems generalizing toks with
  | nil => simp [interleave] at h
  | cons s ss ih =>
    cases toks with
    | nil => simp [interleave] at h
    | cons t tt =>
      simp only [interleave, List.mem_cons] at h
      rcases h with rfl | rfl | h
      · simp
      · simp
      · rcases ih h with h | h
        · exact Or.inl (by simp [h])
        · exact Or.inr (by simp [h])

theorem mem_interleave_right {stems toks : List String} (hlen : stems.length = toks.length)
    {x : String} (h : x ∈ toks) : x ∈ interleave stems toks := by
  induction stems generalizing toks with
  | nil =>
    cases toks with
    | nil => simp at h
    | cons t tt => simp at hlen
  | cons s ss ih =>
    cases toks with
    | nil => simp at h
    | cons t tt =>
      simp only [interleave, List.mem_cons]
      rcases List.mem_cons.1 h with rfl | h
      · simp
      · exact Or.inr (Or.inr (ih (by simpa using hlen) h))

theorem stringsJoin_interleave (stems toks : List String) (h : stems.length = toks.length) :
    stringsJoin (interleave stems toks) "/" =
      stringsJoin (List.zipWith (fun p t => p ++ t) (stems.map (fun s => s ++ "/")) toks) "/" := by
  induction stems generalizing toks with
  | nil => rfl
  | cons s ss ih =>
    cases toks with
    | nil => simp at h
    | cons t tt =>
      have ih' := ih tt (by simpa using h)
      cases ss with
      | nil =>
        cases tt with
        | nil => simp [interleave, stringsJoin]
        | cons u uu => simp at h
      | cons s2 ss2 =>
        cases tt with
        | nil => simp at h
        | cons t2 tt2 =>
          simp only [interleave, List.map_cons, List.zipWith_cons_cons] at ih' ⊢
          rw [stringsJoin, stringsJoin]
          rw [ih']
          conv_rhs => rw [stringsJoin]
          simp [String.append_assoc]

theorem GetNameParentTokens_ok_iff (name : String) (ps ts : List String) :
    GetNameParentTokens name ps = .ok ts ↔
      ∃ stems : List String,
        stems.length = ps.length ∧ ts.length = ps.length ∧
        stringsSplit name '/' = interleave stems ts ∧
        ps = stems.map (fun s => s ++ "/") ∧ (∀ t ∈ ts, t ≠ "") := by
  unfold GetNameParentTokens
  simp only
  by_cases hlen : (stringsSplit name '/').length = 2 * ps.length
  · rw [if_neg (by simpa using hlen)]
    rw [tokensLoop_ok_iff name _ ps 0 [] ts (by simpa using hlen)]
    constructor
    · rintro ⟨stems, toks, hs, ht, hi, hps, hne, rfl⟩
      exact ⟨stems, hs, by simpa using ht, by simpa using hi, hps, by simpa using hne⟩
    · rintro ⟨stems, hs, ht, hi, hps, hne⟩
      exact ⟨stems, ts, hs, ht, by simpa using hi, hps, hne, by simp⟩
  · rw [if_pos (by simpa using hlen)]
    constructor
    · intro h; cases h
    · rintro ⟨stems, hs, ht, hi, -, -⟩
      exfalso
      apply hlen
      rw [hi, interleave_length stems ts (by omega), ht]

theorem GetNameParentTokens_resourceName (segs toks : List String)
    (hlen : segs.length = toks.length) (hk : 1 ≤ toks.length)
    (hsegs : ∀ s ∈ segs, SlashFree s) (htoks : ∀ t ∈ toks, SlashFree t ∧ t ≠ "") :
    GetNameParentTokens (resourceName segs toks) (segs.map (fun s => s ++ "/")) = .ok toks := by
  rw [GetNameParentTokens_ok_iff]
  refine ⟨segs, by simp, by simp [hlen], ?_, rfl, fun t ht => (htoks t ht).2⟩
  unfold resourceName
  apply stringsSplit_join
  · intro hnil
    have := interleave_length segs toks hlen
    rw [hnil, List.length_nil] at this
    omega
  · intro p hp
    rcases mem_interleave hp with h | h
    · exact hsegs p h
    · exact (htoks p h).1

theorem GetNameParentTokens_sound (name : String) (ps ts : List String)
    (h : GetNameParentTokens name ps = .ok ts) :
    ts.length = ps.length ∧ (∀ t ∈ ts, t ≠ "" ∧ SlashFree t) ∧
      name = stringsJoin (List.zipWith (fun p t => p ++ t) ps ts) "/" := by
  obtain ⟨stems, hs, ht, hi, hps, hne⟩ := (GetNameParentTokens_ok_iff name ps ts).1 h
  refine ⟨ht, ?_, ?_⟩
  · intro t htm
    refine ⟨hne t htm, ?_⟩
    apply stringsSplit_slashFree name
    rw [hi]
    exact mem_interleave_right (by omega) htm
  · have hj := stringsJoin_split name
    rw [hi, stringsJoin_interleave stems ts (by omega), ← hps] at hj
    exact hj.symm

theorem ExtractMemoUIDFromName_ok_iff (name uid : String) :
    ExtractMemoUIDFromName name = (uid, none) ↔
      name = "memos/" ++ uid ∧ uid ≠ "" ∧ SlashFree uid := by
  have hsingle : ∀ u : String, u ≠ "" → SlashFree u →
      GetNameParentTokens ("memos/" ++ u) [MemoNamePrefix] = .ok [u] := by
    intro u hu hfree
    have h := GetNameParentTokens_resourceName ["memos"] [u] rfl (by simp)
      (by intro s hs; simp at hs; subst hs; unfold SlashFree; decide)
      (by intro t ht; simp at ht; subst ht; exact ⟨hfree, hu⟩)
    have hname : resourceName ["memos"] [u] = "memos/" ++ u := by
      simp [resourceName, interleave, stringsJoin]
    rw [hname] at h
    exact h
  unfold ExtractMemoUIDFromName
  cases hg : GetNameParentTokens name [MemoNamePrefix] with
  | error err =>
    simp only [Prod.mk.injEq, reduceCtorEq, and_false, false_iff]
    rintro ⟨rfl, hu, hfree⟩
    rw [hsingle uid hu hfree] at hg
    cases hg
  | ok ts =>
    obtain ⟨hlen, hts, hname⟩ := GetNameParentTokens_sound name _ ts hg
    match ts, hlen, hts, hname with
    | [t], _, hts, hname =>
      have hname' : name = "memos/" ++ t := by
        rw [hname]
        simp [MemoNamePrefix, stringsJoin]
      simp only [List.getD_cons_zero, Prod.mk.injEq, and_true]
      constructor
      · rintro rfl
        exact ⟨hname', (hts t (by simp)).1, (hts t (by simp)).2⟩
      · rintro ⟨hn, hu, hfree⟩
        have h2 := hsingle uid hu hfree
        rw [← hn, hg] at h2
        simpa using h2

theorem stringsHasPrefix_iff (s pre : String) :
    stringsHasPrefix s pre = true ↔ ∃ rest : String, s = pre ++ rest := by
  unfold stringsHasPrefix
  rw [ List.isPrefixOf_iff_prefix]
  constructor
  · rintro ⟨t, ht⟩
    exact ⟨String.mk t, String.ext (by rw [String.data_append, ← ht])⟩
  · rintro ⟨rest, rfl⟩
    exact ⟨rest.data, by rw [String.data_append]⟩

theorem stringsTrimPrefix_append (pre rest : String) :
    stringsTrimPrefix (pre ++ rest) pre = rest := by
  unfold stringsTrimPrefix
  rw [if_pos ((stringsHasPrefix_iff _ _).2 ⟨rest, rfl⟩)]
  apply String.ext
  simp [String.data_append]

theorem stringsContains_iff (s : String) (sep : Char) :
    stringsContains s sep = true ↔ sep ∈ s.data := by
  unfold stringsContains
  simp

theorem append_left_cancel_string {a b c : String} (h : a ++ b = a ++ c) : b = c := by
  apply String.ext
  have := congrArg String.data h
  simpa [String.data_append] using this

theorem ExtractWorkspaceSettingKeyFromName_ok_iff (name k : String) :
    ExtractWorkspaceSettingKeyFromName name = (k, none) ↔
      name = "workspace/settings/" ++ k ∧ k ≠ "" ∧ SlashFree k := by
  unfold ExtractWorkspaceSettingKeyFromName
  simp only
  by_cases hp : stringsHasPrefix name "workspace/settings/" = true
  · obtain ⟨rest, rfl⟩ := (stringsHasPrefix_iff _ _).1 hp
    simp only [hp, Bool.not_true, Bool.false_eq_true, if_false, stringsTrimPrefix_append]
    by_cases hrest : rest = ""
    · subst hrest
      simp only [if_true, Prod.mk.injEq, reduceCtorEq, and_false, false_iff]
      rintro ⟨hn, hk, -⟩
      exact hk (append_left_cancel_string hn).symm
    · simp only [hrest, if_false]
      by_cases hs : stringsContains rest '/' = true
      · simp only [hs, if_true, Prod.mk.injEq, reduceCtorEq, and_false, false_iff]
        rintro ⟨hn, -, hfree⟩
        have := append_left_cancel_string hn
        subst this
        exact hfree ((stringsContains_iff _ _).1 hs)
      · simp only [hs, Bool.false_eq_true, if_false, Prod.mk.injEq, and_true]
        constructor
        · rintro rfl
          exact ⟨rfl, hrest, fun hm => hs ((stringsContains_iff _ _).2 hm)⟩
        · rintro ⟨hn, -, -⟩
          exact append_left_cancel_string hn
  · simp only [hp, Bool.not_false, if_true, Prod.mk.injEq, reduceCtorEq, and_false,
      false_iff]
    rintro ⟨hn, -, -⟩
    exact hp ((stringsHasPrefix_iff _ _).2 ⟨k, hn⟩)

/-! ## The claims -/

/-- C18: `GetNameParentTokens` returns the tokens of a resource name. For
`k >= 1` slash-free segment names and as many slash-free, non-empty tokens,
the name `s1/t1/.../sk/tk` read with the prefixes `s1/`, ..., `sk/` gives
`[t1, ..., tk]`. Conversely, whenever the function succeeds with tokens `ts`
on a name and prefixes `p1, ..., pk`, there are `k` tokens, each non-empty and
slash-free, and the name is `p1 ++ ts[0] ++ "/" ++ p2 ++ ts[1] ++ ...`, the
strings `pi ++ ts[i-1]` joined by `/`. -/
theorem GetNameParentTokens_returns_tokens :
    (∀ segs toks : List String, segs.length = toks.length → 1 ≤ toks.length →
      (∀ s ∈ segs, SlashFree s) → (∀ t ∈ toks, SlashFree t ∧ t ≠ "") →
      GetNameParentTokens (resourceName segs toks) (segs.map (fun s => s ++ "/")) =
        .ok toks) ∧
    (∀ (name : String) (ps ts : List String), GetNameParentTokens name ps = .ok ts →
      ts.length = ps.length ∧ (∀ t ∈ ts, t ≠ "" ∧ SlashFree t) ∧
      name = stringsJoin (List.zipWith (fun p t => p ++ t) ps ts) "/") :=
  ⟨GetNameParentTokens_resourceName, GetNameParentTokens_sound⟩

theorem GetNameParentTokens_returns_tokens_witness :
    ((["users", "memos"] : List String).length = (["1", "x"] : List String).length ∧
      1 ≤ (["1", "x"] : List String).length ∧
      (∀ s ∈ (["users", "memos"] : List String), SlashFree s) ∧
      (∀ t ∈ (["1", "x"] : List String), SlashFree t ∧ t ≠ "")) ∧
    GetNameParentTokens "users/1/memos/x" ["users/", "memos/"] = .ok ["1", "x"] :=
  have hs : ∀ s ∈ (["users", "memos"] : List String), SlashFree s := by
    intro s hs
    simp only [List.mem_cons, List.mem_singleton, List.not_mem_nil, or_false] at hs
    rcases hs with rfl | rfl <;> unfold SlashFree <;> decide
  have ht : ∀ t ∈ (["1", "x"] : List String), SlashFree t ∧ t ≠ "" := by
    intro t ht
    simp only [List.mem_cons, List.mem_singleton, List.not_mem_nil, or_false] at ht
    rcases ht with rfl | rfl <;> unfold SlashFree <;> decide
  ⟨⟨rfl, by decide, hs, ht⟩,
    GetNameParentTokens_returns_tokens.1 ["users", "memos"] ["1", "x"] rfl (by decide) hs ht⟩

/-- C19: `ExtractMemoUIDFromName` succeeds with `uid` exactly when the name is
`"memos/" ++ uid` with `uid` non-empty and slash-free, as `"memos/uuid"` gives
`"uuid"`; every other name yields an error (and the empty string). -/
theorem ExtractMemoUIDFromName_spec (name : String) :
    (∀ uid : String, ExtractMemoUIDFromName name = (uid, none) ↔
      name = "memos/" ++ uid ∧ uid ≠ "" ∧ SlashFree uid) ∧
    ((¬ ∃ uid : String, name = "memos/" ++ uid ∧ uid ≠ "" ∧ SlashFree uid) →
      ∃ err, ExtractMemoUIDFromName name = ("", some err)) ∧
    ExtractMemoUIDFromName "memos/uuid" = ("uuid", none) := by
  refine ⟨ExtractMemoUIDFromName_ok_iff name, ?_, rfl⟩
  intro hno
  cases hg : GetNameParentTokens name [MemoNamePrefix] with
  | error err => exact ⟨err, by simp [ExtractMemoUIDFromName, hg]⟩
  | ok ts =>
    exfalso
    apply hno
    refine ⟨ts.getD 0 "", (ExtractMemoUIDFromName_ok_iff name _).1 ?_⟩
    simp [ExtractMemoUIDFromName, hg]

theorem ExtractMemoUIDFromName_spec_witness :
    (¬ ∃ uid : String, "memos/a/b" = "memos/" ++ uid ∧ uid ≠ "" ∧ SlashFree uid) ∧
    ∃ err, ExtractMemoUIDFromName "memos/a/b" = ("", some err) :=
  have hno : ¬ ∃ uid : String, "memos/a/b" = "memos/" ++ uid ∧ uid ≠ "" ∧ SlashFree uid := by
    rintro ⟨uid, hn, -, hfree⟩
    have h : "memos/" ++ "a/b" = "memos/" ++ uid := hn
    have := append_left_cancel_string h
    subst this
    revert hfree
    unfold SlashFree
    decide
  ⟨hno, (ExtractMemoUIDFromName_spec "memos/a/b").2.1 hno⟩

/-- C20: `ExtractWorkspaceSettingKeyFromName` succeeds with key `k` exactly
when the name is `"workspace/settings/" ++ k` with `k` non-empty and
slash-free; otherwise it returns an error and the empty string. -/
theorem ExtractWorkspaceSettingKeyFromName_spec (name : String) :
    (∀ k : String, ExtractWorkspaceSettingKeyFromName name = (k, none) ↔
      name = "workspace/settings/" ++ k ∧ k ≠ "" ∧ SlashFree k) ∧
    ((¬ ∃ k : String, name = "workspace/settings/" ++ k ∧ k ≠ "" ∧ SlashFree k) →
      ∃ err, ExtractWorkspaceSettingKeyFromName name = ("", some err)) := by
  refine ⟨ExtractWorkspaceSettingKeyFromName_ok_iff name, ?_⟩
  intro hno
  by_cases h : ∃ err, ExtractWorkspaceSettingKeyFromName name = ("", some err)
  · exact h
  · exfalso
    apply hno
    refine ⟨(ExtractWorkspaceSettingKeyFromName name).1,
      (ExtractWorkspaceSettingKeyFromName_ok_iff name _).1 ?_⟩
    unfold ExtractWorkspaceSettingKeyFromName at h ⊢
    simp only at h ⊢
    split_ifs at h ⊢ <;> simp_all

theorem ExtractWorkspaceSettingKeyFromName_spec_witness :
    (¬ ∃ k : String, "workspace/settings/a/b" = "workspace/settings/" ++ k ∧ k ≠ "" ∧
      SlashFree k) ∧
    ∃ err, ExtractWorkspaceSettingKeyFromName "workspace/settings/a/b" = ("", some err) :=
  have hno : ¬ ∃ k : String, "workspace/settings/a/b" = "workspace/settings/" ++ k ∧
      k ≠ "" ∧ SlashFree k := by
    rintro ⟨k, hn, -, hfree⟩
    have h : "workspace/settings/" ++ "a/b" = "workspace/settings/" ++ k := hn
    have := append_left_cancel_string h
    subst this
    revert hfree
    unfold SlashFree
    decide
  ⟨hno, (ExtractWorkspaceSettingKeyFromName_spec "workspace/settings/a/b").2 hno⟩

end ResourceName

/-! # Theorems on build targets -/

namespace Dagger

/-! ## Selecting a target -/

theorem filterTargets_exact_all :
    ∀ t ∈ TARGETS, filterTargets t.DockerPlatform = ([t], none) := by
  decide

theorem dockerPlatform_injective :
    ∀ t ∈ TARGETS, ∀ t' ∈ TARGETS, t.DockerPlatform = t'.DockerPlatform → t = t' := by
  decide

theorem fallback_all :
    ∀ t ∈ TARGETS, (∀ t' ∈ TARGETS, t'.DockerPlatform ≠ t.OS ++ "/" ++ t.Arch) →
      selectTarget (t.OS ++ "/" ++ t.Arch) =
          TARGETS.find? (fun x => x.OS = t.OS ∧ x.Arch = t.Arch) ∧
        filterTargets (t.OS ++ "/" ++ t.Arch) =
          ((TARGETS.find? (fun x => x.OS = t.OS ∧ x.Arch = t.Arch)).toList, none) := by
  decide

theorem selectTarget_some {p : String} {t : BuildMatrix} (h : selectTarget p = some t) :
    t ∈ TARGETS ∧ Matches p t := by
  unfold selectTarget at h
  split at h
  · rename_i t' ht'
    cases h
    refine ⟨List.mem_of_find?_eq_some ht', Or.inl ?_⟩
    simpa using List.find?_some ht'
  · simp only at h
    split_ifs at h with hlen
    refine ⟨List.mem_of_find?_eq_some h, Or.inr ?_⟩
    have hm := List.find?_some h
    simp only [decide_eq_true_eq] at hm
    match hp : ResourceName.stringsSplit p '/', hlen with
    | [a, b], _ =>
      rw [hp] at hm
      simp only [List.getD_cons_zero, List.getD_cons_succ] at hm
      rw [hm.1, hm.2]

theorem selectTarget_none_iff (p : String) :
    selectTarget p = none ↔ ∀ t ∈ TARGETS, ¬ Matches p t := by
  constructor
  · intro h t ht hm
    unfold selectTarget at h
    split at h
    · cases h
    · rename_i hexact
      rcases hm with hm | hm
      · have := List.find?_eq_none.1 hexact t ht
        simp [hm] at this
      · simp only [hm, List.length_cons, List.length_nil, List.getD_cons_zero,
          List.getD_cons_succ] at h
        have := List.find?_eq_none.1 h t ht
        simp at this
  · intro h
    cases hs : selectTarget p with
    | none => rfl
    | some t =>
      obtain ⟨ht, hm⟩ := selectTarget_some hs
      exact absurd hm (h t ht)

theorem filterLoop_ok_iff (requested : List String) :
    ∀ (filtered ts : List BuildMatrix),
      filterLoop requested filtered = .ok ts ↔
        ∃ sel, ts = filtered ++ sel ∧
          List.Forall₂ (fun e t => selectTarget e = some t)
            ((requested.map stringsTrimSpace).filter (fun p => p ≠ "")) sel := by
  induction requested with
  | nil =>
    intro filtered ts
    simp only [filterLoop, List.map_nil, List.filter_nil, List.forall₂_nil_left_iff]
    constructor
    · intro h; cases h; exact ⟨[], by simp, rfl⟩
    · rintro ⟨sel, rfl, rfl⟩; simp
  | cons p rest ih =>
    intro filtered ts
    rw [filterLoop]
    simp only [List.map_cons]
    by_cases hp : stringsTrimSpace p = ""
    · simp only [hp, if_true]
      rw [ih]
      simp
    · simp only [hp, if_false]
      rw [List.filter_cons_of_pos (by simpa using hp)]
      cases hs : selectTarget (stringsTrimSpace p) with
      | none =>
        simp only
        constructor
        · intro h; cases h
        · rintro ⟨sel, -, hall⟩
          cases hall with
          | cons h _ => rw [hs] at h; cases h
      | some t =>
        simp only
        rw [ih]
        constructor
        · rintro ⟨sel, rfl, hall⟩
          exact ⟨t :: sel, by simp, List.Forall₂.cons hs hall⟩
        · rintro ⟨sel, rfl, hall⟩
          cases hall with
          | cons h hrest =>
            rw [hs] at h
            cases h
            exact ⟨_, by simp, hrest⟩

theorem filterTargets_ok_iff (platforms : String) (ts : List BuildMatrix)
    (hne : stringsTrimSpace platforms ≠ "") (hall : stringsTrimSpace platforms ≠ "all") :
    filterTargets platforms = (ts, none) ↔
      ts ≠ [] ∧ List.Forall₂ (fun e t => selectTarget e = some t)
        (requestedEntries platforms) ts := by
  unfold filterTargets requestedEntries
  simp only [hne, hall, or_self, if_false]
  cases hl : filterLoop (ResourceName.stringsSplit (stringsTrimSpace platforms) ',') [] with
  | error err =>
    simp only [Prod.mk.injEq, reduceCtorEq, and_false, false_iff, not_and]
    intro _ hforall
    have := (filterLoop_ok_iff _ [] ts).2 ⟨ts, by simp, hforall⟩
    rw [hl] at this
    cases this
  | ok filtered =>
    obtain ⟨sel, hsel, hforall⟩ := (filterLoop_ok_iff _ [] filtered).1 hl
    simp only [List.nil_append] at hsel
    subst hsel
    have huniq : ∀ ts' : List BuildMatrix,
        List.Forall₂ (fun e t => selectTarget e = some t)
          (((ResourceName.stringsSplit (stringsTrimSpace platforms) ',').map stringsTrimSpace).filter
            (fun p => p ≠ "")) ts' → ts' = filtered := by
      intro ts' h'
      have := (filterLoop_ok_iff _ [] ts').2 ⟨ts', by simp, h'⟩
      rw [hl] at this
      cases this
      rfl
    simp only
    by_cases hlen : filtered.length = 0
    · simp only [hlen, if_true, Prod.mk.injEq, reduceCtorEq, and_false, false_iff, not_and]
      intro hts h'
      have := huniq ts h'
      subst this
      exact hts (List.length_eq_zero.1 hlen)
    · simp only [hlen, if_false, Prod.mk.injEq, and_true]
      constructor
      · rintro rfl
        exact ⟨fun h => hlen (by simp [h]), hforall⟩
      · rintro ⟨-, h'⟩
        exact (huniq ts h').symm

theorem forall₂_exists_of_mem {R : String → BuildMatrix → Prop} {es : List String}
    {ts : List BuildMatrix} (h : List.Forall₂ R es ts) {e : String} (he : e ∈ es) :
    ∃ t, t ∈ ts ∧ R e t := by
  induction h with
  | nil => cases he
  | cons hr _ ih =>
    rcases List.mem_cons.1 he with rfl | he
    · exact ⟨_, by simp, hr⟩
    · obtain ⟨t, ht, hrt⟩ := ih he
      exact ⟨t, by simp [ht], hrt⟩

/-! ## The claims -/

/-- C21: exact platform match round trip: for every target `t` of `TARGETS`,
`filterTargets(t.DockerPlatform())` succeeds and returns exactly `[t]`;
`DockerPlatform` is injective on `TARGETS`. -/
theorem exact_platform_round_trip :
    (∀ t ∈ TARGETS, filterTargets t.DockerPlatform = ([t], none)) ∧
    (∀ t ∈ TARGETS, ∀ t' ∈ TARGETS, t.DockerPlatform = t'.DockerPlatform → t = t') :=
  ⟨filterTargets_exact_all, dockerPlatform_injective⟩

theorem exact_platform_round_trip_witness :
    (⟨"linux", "arm", "v7"⟩ : BuildMatrix) ∈ TARGETS ∧
    filterTargets "linux/arm/v7" = ([⟨"linux", "arm", "v7"⟩], none) :=
  ⟨by decide, exact_platform_round_trip.1 ⟨"linux", "arm", "v7"⟩ (by decide)⟩

/-- C22: fallback match without variant: for a requested entry `os/arch` that
is no target's Docker platform while `TARGETS` has a target with that OS and
architecture, the first such target in `TARGETS` order is selected, and
`filterTargets` of that entry returns it alone; in particular
`filterTargets("linux/amd64")` returns `[{linux, amd64, v1}]`. -/
theorem fallback_selects_first_target (os arch : String) (t0 : BuildMatrix)
    (hexact : ∀ t ∈ TARGETS, t.DockerPlatform ≠ os ++ "/" ++ arch)
    (hfirst : TARGETS.find? (fun t => t.OS = os ∧ t.Arch = arch) = some t0) :
    selectTarget (os ++ "/" ++ arch) = some t0 ∧
    filterTargets (os ++ "/" ++ arch) = ([t0], none) ∧
    filterTargets "linux/amd64" = ([⟨"linux", "amd64", "v1"⟩], none) := by
  have hmem := List.mem_of_find?_eq_some hfirst
  have hp := List.find?_some hfirst
  simp only [decide_eq_true_eq] at hp
  obtain ⟨rfl, rfl⟩ := hp
  obtain ⟨h1, h2⟩ := fallback_all t0 hmem hexact
  rw [hfirst] at h1 h2
  exact ⟨h1, h2, by decide⟩

theorem fallback_selects_first_target_witness :
    ((∀ t ∈ TARGETS, t.DockerPlatform ≠ "darwin" ++ "/" ++ "amd64") ∧
      TARGETS.find? (fun t => t.OS = "darwin" ∧ t.Arch = "amd64") =
        some ⟨"darwin", "amd64", "v1"⟩) ∧
    filterTargets ("darwin" ++ "/" ++ "amd64") = ([⟨"darwin", "amd64", "v1"⟩], none) :=
  ⟨⟨by decide, by decide⟩,
    (fallback_selects_first_target "darwin" "amd64" ⟨"darwin", "amd64", "v1"⟩
      (by decide) (by decide)).2.1⟩

/-- C23: on a platforms string that is neither empty nor `all` after trimming,
`filterTargets` fails and returns no targets whenever some comma-separated
entry, non-empty after trimming, matches no target either exactly or by the
`os/arch` fallback, whatever the other entries are, and also when every entry
is empty; whenever it succeeds, the result has exactly one element of
`TARGETS` per non-empty entry, the target that entry selects, in request
order. -/
theorem filterTargets_all_or_nothing (platforms : String)
    (hne : stringsTrimSpace platforms ≠ "") (hall : stringsTrimSpace platforms ≠ "all") :
    ((∃ e ∈ requestedEntries platforms, ∀ t ∈ TARGETS, ¬ Matches e t) →
      ∃ err, filterTargets platforms = ([], some err)) ∧
    (requestedEntries platforms = [] →
      filterTargets platforms = ([], some .noValidPlatforms)) ∧
    (∀ ts : List BuildMatrix, filterTargets platforms = (ts, none) →
      ts.length = (requestedEntries platforms).length ∧
      List.Forall₂ (fun e t => selectTarget e = some t ∧ t ∈ TARGETS ∧ Matches e t)
        (requestedEntries platforms) ts) := by
  have hshape : ∀ r, filterTargets platforms = r →
      (∃ err, r = ([], some err)) ∨ (∃ ts, r = (ts, none)) := by
    intro r hr
    subst hr
    unfold filterTargets
    simp only [hne, hall, or_self, if_false]
    cases filterLoop (ResourceName.stringsSplit (stringsTrimSpace platforms) ',') [] with
    | error err => exact Or.inl ⟨err, rfl⟩
    | ok filtered =>
      simp only
      split_ifs
      · exact Or.inl ⟨_, rfl⟩
      · exact Or.inr ⟨_, rfl⟩
  refine ⟨?_, ?_, ?_⟩
  · rintro ⟨e, he, hno⟩
    rcases hshape _ rfl with h | ⟨ts, h⟩
    · exact h
    · exfalso
      obtain ⟨-, hforall⟩ := (filterTargets_ok_iff platforms ts hne hall).1 h
      obtain ⟨t, -, ht⟩ := forall₂_exists_of_mem hforall he
      exact absurd (selectTarget_some ht).2 (hno t (selectTarget_some ht).1)
  · intro hempty
    unfold filterTargets
    simp only [hne, hall, or_self, if_false]
    have hl : filterLoop (ResourceName.stringsSplit (stringsTrimSpace platforms) ',') [] = .ok [] := by
      rw [filterLoop_ok_iff]
      refine ⟨[], by simp, ?_⟩
      unfold requestedEntries at hempty
      rw [hempty]
      exact List.Forall₂.nil
    rw [hl]
    simp
  · intro ts h
    obtain ⟨-, hforall⟩ := (filterTargets_ok_iff platforms ts hne hall).1 h
    refine ⟨hforall.length_eq.symm, ?_⟩
    exact hforall.imp (fun e t h => ⟨h, (selectTarget_some h).1, (selectTarget_some h).2⟩)

theorem filterTargets_all_or_nothing_witness :
    (stringsTrimSpace "linux/bogus, linux/amd64" ≠ "" ∧
      stringsTrimSpace "linux/bogus, linux/amd64" ≠ "all" ∧
      ∃ e ∈ requestedEntries "linux/bogus, linux/amd64", ∀ t ∈ TARGETS, ¬ Matches e t) ∧
    ∃ err, filterTargets "linux/bogus, linux/amd64" = ([], some err) :=
  have hbad : ∃ e ∈ requestedEntries "linux/bogus, linux/amd64", ∀ t ∈ TARGETS, ¬ Matches e t :=
    ⟨"linux/bogus", by decide, by unfold Matches; decide⟩
  ⟨⟨by decide, by decide, hbad⟩,
    (filterTargets_all_or_nothing "linux/bogus, linux/amd64" (by decide) (by decide)).1 hbad⟩

/-- C24: for every target `m` and version `v`, the archive name is
`"memos-" ++ v ++ "-" ++ m.OS ++ "-" ++ arch ++ "." ++ ext`, where `arch` is
`m.UnameArch()` followed by `"_" ++ ArchLevel` exactly when `Arch` is `amd64`
and `ArchLevel` is neither empty nor `v1`, and `ext` is `zip` exactly when
`OS` is `windows` and `tar.gz` otherwise; as the two examples of the source
comment show. -/
theorem archive_name_format (m : BuildMatrix) (v : String) :
    m.ArchiveName v =
      "memos-" ++ v ++ "-" ++ m.OS ++ "-" ++
        (m.UnameArch ++
          (if m.Arch = "amd64" ∧ m.ArchLevel ≠ "" ∧ m.ArchLevel ≠ "v1"
            then "_" ++ m.ArchLevel else "")) ++
        "." ++ (if m.OS = "windows" then "zip" else "tar.gz") ∧
    (⟨"linux", "amd64", "v1"⟩ : BuildMatrix).ArchiveName "v0.25.3" =
      "memos-v0.25.3-linux-x86_64.tar.gz" ∧
    (⟨"windows", "amd64", "v1"⟩ : BuildMatrix).ArchiveName "v0.25.3" =
      "memos-v0.25.3-windows-x86_64.zip" := by
  refine ⟨?_, by decide, by decide⟩
  unfold BuildMatrix.ArchiveName
  simp only
  split_ifs <;> simp [String.append_assoc]

end Dagger
